import Mathlib

/-!
# Process lifecycle and virtual memory core of `userprog/process.c`

A shallow embedding of the functions of `src/userprog/process.c` and proofs about
them.  Conventions used throughout:

* machine words are natural numbers below `2 ^ 32`; pointer and `uint32_t`
  arithmetic is written with an explicit `% 4294967296`;
* kernel objects that the C code reaches through pointers (threads, frames, page
  table entries) are records, and a function that mutates them returns the new
  value;
* blocking primitives and calls into other subsystems are recorded as `Event`s in the
  order in which the C code issues them;
* results of collaborators that are outside this file (allocators, the file system)
  are supplied by oracle records.
-/

namespace Pintos

/-! ## Threads, semaphores and events -/

/-- The three per-thread semaphores used by the lifecycle code. -/
inductive Sema where
  | load_lock
  | child_lock
  | mem_lock
  deriving DecidableEq, Repr

/-- The fields of `struct thread` that `process.c` reads or writes.  A semaphore field
holds the semaphore's current value.  `pagedir` is `none` for a null pointer. -/
structure thread where
  tid : Int
  exit_status : Int
  flag : Int
  load_lock : Nat
  child_lock : Nat
  mem_lock : Nat
  max_mapid : Nat
  pagedir : Option Nat
  file : Option Nat
  deriving DecidableEq, Repr

/-- Calls issued by `process.c`, in program order.  Semaphore operations name the
thread that owns the semaphore by its tid. -/
inductive Event where
  | sema_down (owner : Int) (s : Sema)
  | sema_up (owner : Int) (s : Sema)
  | Munmap (mapid : Nat)
  | file_close (file : Option Nat)
  | page_table_destroy
  | set_pagedir_null
  | pagedir_activate (pd : Option Nat)
  | pagedir_destroy (pd : Nat)
  | page_table_init
  | load_called (success : Bool)
  | palloc_free_page
  | set_flag (v : Int)
  | Exit (status : Int)
  | intr_exit
  | palloc_get_page
  | filesys_open (name : List Nat)
  | thread_create (name : List Nat)
  | file_seek (ofs : Nat)
  | file_read (size : Nat)
  | lock_acquire
  | lock_release
  deriving DecidableEq, Repr

/-- Ways in which a run ends other than by the `return` of the function: a store through
a null pointer, a store past the end of an array, a failed `ASSERT`, a `sema_down` that
cannot proceed, and fuel that does not suffice for a loop. -/
inductive Fault where
  | null_deref
  | buffer_overrun
  | assert_failed
  | blocked
  | out_of_fuel
  deriving DecidableEq, Repr

/-! ## `process_wait` -/

/-- The result of `process_wait`: the returned status, the caller's children list
afterwards and the semaphore operations performed. -/
structure WaitResult where
  status : Int
  children : List thread
  events : List Event
  deriving DecidableEq, Repr

/-- The body of `process_wait`, by recursion on the part of the children list that the
`for` loop has not visited yet.  `exit_status` starts at `-1`; on the first entry whose
tid is `child_tid` the loop waits on the child's `child_lock`, reads its exit status,
unlinks it from the list, signals its `mem_lock` and stops. -/
def process_wait (child_tid : Int) : List thread → WaitResult
  | [] => { status := -1, children := [], events := [] }
  | child_ptr :: rest =>
    if child_ptr.tid = child_tid then
      { status := child_ptr.exit_status,
        children := rest,
        events := [Event.sema_down child_ptr.tid Sema.child_lock,
                   Event.sema_up child_ptr.tid Sema.mem_lock] }
    else
      let r := process_wait child_tid rest
      { status := r.status, children := child_ptr :: r.children, events := r.events }


/-! ## C strings and `strtok_r` -/

/-- Modelled from the spec: `strlen` of `lib/string.c` (not under `src/`), the number of
bytes before the first NUL.  A string argument is the list of bytes found at the
pointer; the list is followed by a NUL. -/
def strlen (s : List Nat) : Nat := (s.takeWhile (fun c => c != 0)).length

/-- The C string that starts at index `p` of a buffer. -/
def cstr_at (buf : List Nat) (p : Nat) : List Nat :=
  (buf.drop p).takeWhile (fun c => c != 0)

/-- Modelled from the spec: `strlcpy (dst, src, size)` of `lib/string.c` (not under
`src/`) for `size > 0`: the bytes written to `dst`, which are the first
`min (strlen src) (size - 1)` bytes of `src` followed by a NUL. -/
def strlcpy (src : List Nat) (size : Nat) : List Nat :=
  (src.takeWhile (fun c => c != 0)).take (min (strlen src) (size - 1)) ++ [0]

/-- The result of one `strtok_r` call: the returned token (an index into the buffer,
`none` for a null pointer), the buffer after the call and the saved position. -/
structure TokResult where
  token : Option Nat
  buf : List Nat
  save_ptr : Nat
  deriving DecidableEq, Repr

/-- Modelled from the spec: `strtok_r (s, " ", &save_ptr)` of `lib/string.c` (not under
`src/`), the "whitespace-delimited token" scanner of the spec, with the single
delimiter 32 (space).  Starting at index `s` it skips spaces; at a NUL it returns a
null token.  Otherwise the token starts there and runs up to the next space or NUL; a
space that ends the token is overwritten by NUL and the saved position is the byte
after it. -/
def strtok_r (buf : List Nat) (s : Nat) : TokResult :=
  let s1 := s + ((buf.drop s).takeWhile (fun c => c == 32)).length
  if buf.getD s1 0 = 0 then
    { token := none, buf := buf, save_ptr := s1 }
  else
    let s2 := s1 + ((buf.drop s1).takeWhile (fun c => c != 32 && c != 0)).length
    if buf.getD s2 0 ≠ 0 then
      { token := some s1, buf := buf.set s2 0, save_ptr := s2 + 1 }
    else
      { token := some s1, buf := buf, save_ptr := s2 }

/-! ## `start_process` and `process_execute` -/

/-- Thread id returned by `thread_create` on failure (`threads/thread.h`). -/
def TID_ERROR : Int := -1

/-- The calls and stores of `start_process` running in thread `t`, in program order,
when `load` returns `success`: `page_table_init`, `load`, `sema_up (&load_lock)`,
`palloc_free_page`, then the store to `flag` (0 followed by `Exit (-1)` if the load
failed, 1 followed by the jump to `intr_exit` otherwise). -/
def start_process (t : thread) (success : Bool) : List Event :=
  [Event.page_table_init,
   Event.load_called success,
   Event.sema_up t.tid Sema.load_lock,
   Event.palloc_free_page] ++
  (if !success then [Event.set_flag 0, Event.Exit (-1)]
   else [Event.set_flag 1, Event.intr_exit])

/-- The effect of one step of `start_process` on the fields of its own thread that
`process_execute` looks at: `sema_up` on its `load_lock` increments the semaphore and a
store to `flag` replaces the flag. -/
def child_step (t : thread) : Event → thread
  | Event.sema_up owner Sema.load_lock =>
    if owner = t.tid then { t with load_lock := t.load_lock + 1 } else t
  | Event.set_flag v => { t with flag := v }
  | _ => t

/-- The child thread after the first `k` steps of `start_process`. -/
def child_after (k : Nat) (t : thread) (success : Bool) : thread :=
  ((start_process t success).take k).foldl child_step t

/-- What `process_execute` obtains from its collaborators: whether `palloc_get_page`
returns a page, which names `filesys_open` can open, the tid returned by
`thread_create`, and the caller's children list as it is when the caller runs again
after `sema_down (&child_t->load_lock)`. -/
structure ExecOracle where
  palloc_ok : Bool
  file_exists : List Nat → Bool
  tid : Int
  children : List thread

/-- The search loop of `process_execute`: the first child whose tid is `tid`, or a null
pointer. -/
def find_child (tid : Int) : List thread → Option thread
  | [] => none
  | t :: rest => if t.tid = tid then some t else find_child tid rest

/-- The name that `process_execute` hands to `filesys_open` and `thread_create`: the
array `cmd` read as a C string from its first byte, after `strlcpy` and one
`strtok_r` call whose result (`temp`) is not used. -/
def process_execute_cmd (file_name : List Nat) : List Nat :=
  cstr_at (strtok_r (strlcpy file_name (strlen file_name + 1)) 0).buf 0

/-- The function `process_execute`.  `cmd` has 128 bytes and `strlcpy` writes
`strlen file_name + 1` of them.  The result carries the calls made, in order. -/
def process_execute (o : ExecOracle) (file_name : List Nat) :
    Except Fault (Int × List Event) :=
  if !o.palloc_ok then
    Except.ok (TID_ERROR, [Event.palloc_get_page])
  else if 128 < strlen file_name + 1 then
    Except.error Fault.buffer_overrun
  else
    let cmd := process_execute_cmd file_name
    if !o.file_exists cmd then
      Except.ok (TID_ERROR, [Event.palloc_get_page, Event.filesys_open cmd])
    else
      match find_child o.tid o.children with
      | none => Except.error Fault.null_deref
      | some child_t =>
        if child_t.load_lock = 0 then
          Except.error Fault.blocked
        else
          let ev := [Event.palloc_get_page, Event.filesys_open cmd,
                     Event.thread_create cmd,
                     Event.sema_down child_t.tid Sema.load_lock]
          if child_t.flag = 0 then
            Except.ok (-1, ev)
          else if o.tid = TID_ERROR then
            Except.ok (o.tid, ev ++ [Event.palloc_free_page])
          else
            Except.ok (o.tid, ev)

/-! ## Command-line parsing in `load` -/

/-- Modelled from the spec: `snprintf (dst, size, "%s", src)` of `lib/stdio.c` (not
under `src/`) for `size > 0`: the bytes written to `dst`, at most `size - 1` bytes of
the string and a NUL. -/
def snprintf_s (src : List Nat) (size : Nat) : List Nat :=
  (src.takeWhile (fun c => c != 0)).take (size - 1) ++ [0]

/-- The `do ... while (token != NULL)` loop of `load`: stores `token` in the next slot
of `argv`, asks `strtok_r` for the following token and repeats while that token is not
null.  `argv` is the list of slots filled so far; the array has 128 slots. -/
def load_tokens : Nat → List Nat → Nat → Option Nat → List (Option Nat) →
    Except Fault (List (Option Nat) × List Nat)
  | 0, _, _, _, _ => Except.error Fault.out_of_fuel
  | fuel + 1, buf, save_ptr, token, argv =>
    if 128 ≤ argv.length then Except.error Fault.buffer_overrun
    else
      let r := strtok_r buf save_ptr
      match r.token with
      | none => Except.ok (argv ++ [token], r.buf)
      | some next => load_tokens fuel r.buf r.save_ptr (some next) (argv ++ [token])

/-- Step 1 of `load`: copy the command line into the 128-byte array
`file_name_copied`, tokenize it in place and fill `argv`.  The result is the vector of
pointers (indices into the array, `none` for null) and the array afterwards; `argc` is
the length of the vector. -/
def load_parse (file_name : List Nat) : Except Fault (List (Option Nat) × List Nat) :=
  let file_name_copied := snprintf_s file_name 128
  let r := strtok_r file_name_copied 0
  load_tokens (file_name_copied.length + 1) r.buf r.save_ptr r.token []

/-- The strings that the entries of `argv` point to after step 1 of `load`. -/
def load_argv (file_name : List Nat) : Except Fault (List (Option (List Nat))) :=
  match load_parse file_name with
  | Except.error e => Except.error e
  | Except.ok (argv, buf) => Except.ok (argv.map (fun a => a.map (cstr_at buf)))

/-- The command line `" echo hello"`, with a leading space. -/
def cmdline_space_echo_hello : List Nat := [32, 101, 99, 104, 111, 32, 104, 101, 108, 108, 111]

/-- The command line `"echo hello"`. -/
def cmdline_echo_hello : List Nat := [101, 99, 104, 111, 32, 104, 101, 108, 108, 111]

/-! ## `process_exit` -/

/-- The loop `for (unsigned i = 0; i <= max_mapid; i++) Munmap (i);` of `process_exit`
from counter value `i` on.  The counter is a 32-bit unsigned and wraps on increment;
one unit of fuel is used for every iteration. -/
def munmap_loop : Nat → Nat → Nat → Option (List Event)
  | fuel, i, max_mapid =>
    if i ≤ max_mapid then
      match fuel with
      | 0 => none
      | fuel + 1 =>
        (munmap_loop fuel ((i + 1) % 4294967296) max_mapid).map
          (fun rest => Event.Munmap i :: rest)
    else some []

/-- The function `process_exit` run by thread `t`: the calls it makes, in program
order, and the thread afterwards (`pagedir` is cleared when it was not null).  The
result is `none` when the fuel does not suffice for the `Munmap` loop. -/
def process_exit (fuel : Nat) (t : thread) : Option (List Event × thread) :=
  match munmap_loop fuel 0 t.max_mapid with
  | none => none
  | some unmaps =>
    let ev := unmaps ++ [Event.file_close t.file, Event.page_table_destroy]
    match t.pagedir with
    | some pd =>
      some (ev ++ [Event.set_pagedir_null, Event.pagedir_activate none,
                   Event.pagedir_destroy pd,
                   Event.sema_up t.tid Sema.child_lock,
                   Event.sema_down t.tid Sema.mem_lock],
            { t with pagedir := none })
    | none =>
      some (ev ++ [Event.sema_up t.tid Sema.child_lock,
                   Event.sema_down t.tid Sema.mem_lock], t)

/-- The order of the calls of `process_exit` by thread `t` in the words of the
specification of exit: unmap the regions 0 to `max_mapid`, close the executable,
destroy the page table entries, then (with a page directory) clear the field, activate
the kernel directory and destroy the old one, then signal `child_lock` and wait on
`mem_lock`. -/
def process_exit_order (t : thread) : List Event :=
  (List.range (t.max_mapid + 1)).map Event.Munmap ++
  [Event.file_close t.file, Event.page_table_destroy] ++
  (match t.pagedir with
   | some pd => [Event.set_pagedir_null, Event.pagedir_activate none,
                 Event.pagedir_destroy pd]
   | none => []) ++
  [Event.sema_up t.tid Sema.child_lock, Event.sema_down t.tid Sema.mem_lock]

/-! ## Addresses and pages -/

/-- Modelled from the spec: `PGSIZE` of `threads/vaddr.h` (not under `src/`), the size
of a page in bytes; on the 32-bit x86 that `process.c` targets a page has 4096
bytes. -/
def PGSIZE : Nat := 4096

/-- Modelled from the spec: `PGMASK` of `threads/vaddr.h` (not under `src/`), the bits
of an address that are the offset within its page. -/
def PGMASK : Nat := 4095

/-- The 32-bit complement `~PGMASK`. -/
def NOT_PGMASK : Nat := 4294963200

/-- Modelled from the spec: `PHYS_BASE` of `threads/vaddr.h` (not under `src/`), the top
of the user address space; Pintos places it at `0xc0000000`. -/
def PHYS_BASE : Nat := 3221225472

/-- Modelled from the spec: `is_user_vaddr` of `threads/vaddr.h` (not under `src/`): the
address is below the top of the user address space. -/
def is_user_vaddr (vaddr : Nat) : Bool := decide (vaddr < PHYS_BASE)

/-- Modelled from the spec: `pg_round_down` of `threads/vaddr.h` (not under `src/`): the
start of the page that holds the address. -/
def pg_round_down (va : Nat) : Nat := va &&& NOT_PGMASK

/-- Subtraction of a byte count from a 32-bit pointer, modulo `2 ^ 32`. -/
def ptr_sub (p n : Nat) : Nat := (p + 4294967296 - n % 4294967296) % 4294967296

/-! ## Page table entries, frames and the page directory -/

/-- The resolution kinds of a page table entry (`vm/page.h`). -/
inductive pte_type where
  | LOAD
  | MEMMAP
  | SWAP
  deriving DecidableEq, Repr

/-- Modelled from the spec: `struct PTE` of `vm/page.h` (not under `src/`), with the
fields that `process.c` reads, writes or passes to `create_pte`. -/
structure PTE where
  vpn : Nat
  type : pte_type
  writable : Bool
  file : Option Nat
  offset : Nat
  read_bytes : Nat
  mem_flag : Bool
  swap_slot : Nat
  deriving DecidableEq, Repr

/-- Modelled from the spec: `create_pte` of `vm/page.c` (not under `src/`): allocates a
descriptor and fills it from its arguments; a null pointer when the allocation fails
(`ok = false`). -/
def create_pte (ok : Bool) (vpn : Nat) (type : pte_type) (writable : Bool)
    (file : Option Nat) (offset read_bytes : Nat) (mem_flag : Bool) : Option PTE :=
  if ok then
    some { vpn := vpn, type := type, writable := writable, file := file,
           offset := offset, read_bytes := read_bytes, mem_flag := mem_flag,
           swap_slot := 0 }
  else none

/-- A frame (`vm/frame.h`): the kernel address of the page and the back-reference to
the page table entry that occupies it. -/
structure frame where
  pfn : Nat
  pte : Option PTE
  deriving DecidableEq, Repr

/-- The memory-management state of the current process: the mappings of its page
directory (user page, kernel page, writable), the entries handed to
`page_insert_entry` (oldest first) and the frames it holds. -/
structure VmState where
  pagedir : List (Nat × Nat × Bool)
  page_table : List PTE
  frames : List frame
  deriving DecidableEq, Repr

/-- What the collaborators of the fault-handling code return: the kernel page of the
frame given by `alloc_page_to_frame` (`none` for a null pointer), whether
`pagedir_set_page` can allocate, whether `create_pte` can allocate and whether
`load_to_frame` succeeds. -/
structure VmOracle where
  frame : Option Nat
  pd_set_ok : Bool
  pte_ok : Bool
  load_ok : Bool
  deriving DecidableEq, Repr

/-- Modelled from the spec: `alloc_page_to_frame` of `vm/frame.c` (not under `src/`):
`allocate_frame(flags) → frame | none`; a frame that is handed out joins the frames of
the process. -/
def alloc_page_to_frame (o : VmOracle) (st : VmState) : Option frame × VmState :=
  match o.frame with
  | none => (none, st)
  | some pfn =>
    (some { pfn := pfn, pte := none },
     { st with frames := st.frames ++ [{ pfn := pfn, pte := none }] })

/-- Modelled from the spec: `free_frame` of `vm/frame.c` (not under `src/`):
`release_frame(frame)`. -/
def free_frame (st : VmState) (pfn : Nat) : VmState :=
  { st with frames := st.frames.filter (fun f => f.pfn != pfn) }

/-- The store `f->pte = pte` for the frame with kernel page `pfn`. -/
def set_frame_pte (st : VmState) (pfn : Nat) (pte : PTE) : VmState :=
  { st with
    frames := List.map (fun f => if f.pfn = pfn then { f with pte := some pte } else f)
      st.frames }

/-- Modelled from the spec: `page_insert_entry` of `vm/page.c` (not under `src/`):
registers the descriptor in the page table entry store of the process. -/
def page_insert_entry (st : VmState) (pte : PTE) : VmState :=
  { st with page_table := st.page_table ++ [pte] }

/-- Modelled from the spec: `pagedir_get_page` of `userprog/pagedir.c` (not under
`src/`): `lookup(root, virtual_page) → frame | none`. -/
def pagedir_get_page (pd : List (Nat × Nat × Bool)) (upage : Nat) : Option Nat :=
  (pd.find? (fun m => m.1 == upage)).map (fun m => m.2.1)

/-- The function `install_page`: succeeds when `upage` is not mapped yet and
`pagedir_set_page` succeeds, and then the mapping is part of the page directory. -/
def install_page (o : VmOracle) (upage kpage : Nat) (writable : Bool) (st : VmState) :
    Bool × VmState :=
  if (pagedir_get_page st.pagedir upage).isNone && o.pd_set_ok then
    (true, { st with pagedir := (upage, kpage, writable) :: st.pagedir })
  else (false, st)

/-! ## `stack_growth` and `handle_mm_fault` -/

/-- The function `stack_growth (addr, esp)`.  `PHYS_BASE - 0x800000` and `esp - 32` are
pointer subtractions. -/
def stack_growth (o : VmOracle) (addr esp : Nat) (st : VmState) : Bool × VmState :=
  if !is_user_vaddr addr || decide (addr < ptr_sub PHYS_BASE 8388608) then (false, st)
  else if addr < ptr_sub esp 32 then (false, st)
  else
    let upage := pg_round_down addr
    match alloc_page_to_frame o st with
    | (none, st1) => (false, st1)
    | (some f, st1) =>
      match install_page o upage f.pfn true st1 with
      | (true, st2) =>
        match create_pte o.pte_ok upage pte_type.SWAP true none 0 0 true with
        | none => (false, st2)
        | some pte => (true, page_insert_entry (set_frame_pte st2 f.pfn pte) pte)
      | (false, st2) => (false, free_frame st2 f.pfn)

/-- The function `handle_mm_fault (pte)`.  The result carries the page table entry
after the call, since the function stores to `pte->mem_flag`.  The test `f == NULL` is
commented out in the source, so the store `f->pte = pte` goes through the pointer
that `alloc_page_to_frame` returned, whatever it is. -/
def handle_mm_fault (o : VmOracle) (pte : PTE) (st : VmState) :
    Except Fault (Bool × PTE × VmState) :=
  match alloc_page_to_frame o st with
  | (none, _) => Except.error Fault.null_deref
  | (some f, st1) =>
    let st2 := set_frame_pte st1 f.pfn pte
    let r : Bool × VmState :=
      if pte.type = pte_type.LOAD ∨ pte.type = pte_type.MEMMAP then
        if o.load_ok then install_page o pte.vpn f.pfn pte.writable st2
        else (false, st2)
      else if pte.type = pte_type.SWAP then
        install_page o pte.vpn f.pfn pte.writable st2
      else (false, st2)
    if r.1 then Except.ok (true, { pte with mem_flag := true }, r.2)
    else Except.ok (false, pte, free_frame r.2 f.pfn)

/-! ## ELF program headers, `validate_segment` and `load_segment` -/

/-- The program header `struct Elf32_Phdr`; every field is a 32-bit unsigned. -/
structure Elf32_Phdr where
  p_type : Nat
  p_offset : Nat
  p_vaddr : Nat
  p_paddr : Nat
  p_filesz : Nat
  p_memsz : Nat
  p_flags : Nat
  p_align : Nat
  deriving DecidableEq, Repr

/-- Every field of the header is a 32-bit value. -/
def Elf32_Phdr.wf (phdr : Elf32_Phdr) : Prop :=
  phdr.p_type < 4294967296 ∧ phdr.p_offset < 4294967296 ∧ phdr.p_vaddr < 4294967296 ∧
  phdr.p_paddr < 4294967296 ∧ phdr.p_filesz < 4294967296 ∧ phdr.p_memsz < 4294967296 ∧
  phdr.p_flags < 4294967296 ∧ phdr.p_align < 4294967296

instance (phdr : Elf32_Phdr) : Decidable phdr.wf := by
  unfold Elf32_Phdr.wf
  infer_instance

/-- Value of `p_type`: ignore. -/
def PT_NULL : Nat := 0

/-- Value of `p_type`: loadable segment. -/
def PT_LOAD : Nat := 1

/-- Value of `p_type`: dynamic linking info. -/
def PT_DYNAMIC : Nat := 2

/-- Value of `p_type`: name of dynamic loader. -/
def PT_INTERP : Nat := 3

/-- Value of `p_type`: auxiliary info. -/
def PT_NOTE : Nat := 4

/-- Value of `p_type`: reserved. -/
def PT_SHLIB : Nat := 5

/-- Value of `p_type`: program header table. -/
def PT_PHDR : Nat := 6

/-- Value of `p_type`: stack segment, `0x6474e551`. -/
def PT_STACK : Nat := 1685382481

/-- Flag of `p_flags`: writable. -/
def PF_W : Nat := 2

/-- Modelled from the spec: `ROUND_UP (X, STEP)` of `lib/round.h` (not under `src/`), in
32-bit unsigned arithmetic: `(X + STEP - 1) / STEP * STEP`. -/
def ROUND_UP (x step : Nat) : Nat :=
  ((x + step - 1) % 4294967296 / step * step) % 4294967296

/-- The function `validate_segment`; `file_length` is `(Elf32_Off) file_length (file)`.
The sum `p_vaddr + p_memsz` is a 32-bit sum. -/
def validate_segment (phdr : Elf32_Phdr) (file_length : Nat) : Bool :=
  if (phdr.p_offset &&& PGMASK) ≠ (phdr.p_vaddr &&& PGMASK) then false
  else if phdr.p_offset > file_length then false
  else if phdr.p_memsz < phdr.p_filesz then false
  else if phdr.p_memsz = 0 then false
  else if !is_user_vaddr phdr.p_vaddr then false
  else if !is_user_vaddr ((phdr.p_vaddr + phdr.p_memsz) % 4294967296) then false
  else if (phdr.p_vaddr + phdr.p_memsz) % 4294967296 < phdr.p_vaddr then false
  else if phdr.p_vaddr < PGSIZE then false
  else true

/-- The `while` loop of `load_segment`.  `k` counts the entries created so far and
selects the outcome `pte_ok k` of the next `create_pte`; one unit of fuel is used for
every iteration.  `ofs` is an `off_t`, carried as its 32-bit pattern; the four
updates at the end of the body are 32-bit operations. -/
def load_segment_loop (pte_ok : Nat → Bool) (file : Option Nat) (writable : Bool) :
    Nat → Nat → Nat → Nat → Nat → Nat → VmState → Except Fault (Bool × VmState)
  | fuel, k, ofs, upage, read_bytes, zero_bytes, st =>
    if 0 < read_bytes ∨ 0 < zero_bytes then
      match fuel with
      | 0 => Except.error Fault.out_of_fuel
      | fuel + 1 =>
        let page_read_bytes := if read_bytes < PGSIZE then read_bytes else PGSIZE
        let page_zero_bytes := PGSIZE - page_read_bytes
        match create_pte (pte_ok k) upage pte_type.LOAD writable file ofs
            page_read_bytes false with
        | none => Except.ok (false, st)
        | some pte =>
          load_segment_loop pte_ok file writable fuel (k + 1)
            ((ofs + page_read_bytes) % 4294967296)
            ((upage + PGSIZE) % 4294967296)
            ((read_bytes + 4294967296 - page_read_bytes) % 4294967296)
            ((zero_bytes + 4294967296 - page_zero_bytes) % 4294967296)
            (page_insert_entry st pte)
    else Except.ok (true, st)

/-- The function `load_segment`: the three assertions, `file_seek` and the loop.  The
result carries the file operations performed. -/
def load_segment (pte_ok : Nat → Bool) (fuel : Nat) (file : Option Nat)
    (ofs upage read_bytes zero_bytes : Nat) (writable : Bool) (st : VmState) :
    Except Fault (Bool × VmState × List Event) :=
  if (read_bytes + zero_bytes) % 4294967296 % PGSIZE ≠ 0 then
    Except.error Fault.assert_failed
  else if upage &&& PGMASK ≠ 0 then Except.error Fault.assert_failed
  else if ofs % PGSIZE ≠ 0 then Except.error Fault.assert_failed
  else
    match load_segment_loop pte_ok file writable fuel 0 ofs upage read_bytes zero_bytes
        st with
    | Except.error e => Except.error e
    | Except.ok (b, st1) => Except.ok (b, st1, [Event.file_seek ofs])

/-- The `k`-th entry (from 0) of a lazily loaded segment in closed form: the page at
`upage + k * PGSIZE`, file offset `ofs + min (k * PGSIZE) read_bytes` and read count
`min PGSIZE (read_bytes - min (k * PGSIZE) read_bytes)`, the sums taken as 32-bit
values. -/
def segment_entry (file : Option Nat) (writable : Bool) (ofs upage read_bytes k : Nat) :
    PTE :=
  { vpn := (upage + k * PGSIZE) % 4294967296,
    type := pte_type.LOAD,
    writable := writable,
    file := file,
    offset := (ofs + min (k * PGSIZE) read_bytes) % 4294967296,
    read_bytes := min PGSIZE (read_bytes - min (k * PGSIZE) read_bytes),
    mem_flag := false,
    swap_slot := 0 }

/-- The `PT_LOAD` case of the `switch` in `load`, for the header `phdr` of the open
file: `validate_segment`, the computation of `read_bytes` and `zero_bytes`, and
`load_segment`.  A header that is not valid, or a failing `load_segment`, yields
false (`goto done`). -/
def load_pt_load (pte_ok : Nat → Bool) (fuel : Nat) (file : Option Nat)
    (file_length : Nat) (phdr : Elf32_Phdr) (st : VmState) :
    Except Fault (Bool × VmState × List Event) :=
  if validate_segment phdr file_length then
    let writable := decide ((phdr.p_flags &&& PF_W) ≠ 0)
    let file_page := phdr.p_offset &&& NOT_PGMASK
    let mem_page := phdr.p_vaddr &&& NOT_PGMASK
    let page_offset := phdr.p_vaddr &&& PGMASK
    let read_bytes :=
      if phdr.p_filesz > 0 then (page_offset + phdr.p_filesz) % 4294967296 else 0
    let zero_bytes :=
      if phdr.p_filesz > 0 then
        (ROUND_UP ((page_offset + phdr.p_memsz) % 4294967296) PGSIZE + 4294967296
          - read_bytes) % 4294967296
      else ROUND_UP ((page_offset + phdr.p_memsz) % 4294967296) PGSIZE
    load_segment pte_ok fuel file file_page mem_page read_bytes zero_bytes writable st
  else Except.ok (false, st, [])

/-! ## The initial user stack: `stack_constructor` -/

/-- User memory: the byte stored at each address. -/
abbrev Memory := Nat → Nat

/-- Modelled from the spec: `memcpy` and `memset` of `lib/string.c` (not under `src/`),
as a store of the given bytes at the addresses `dst`, `dst + 1`, ... (modulo
`2 ^ 32`). -/
def store_bytes (mem : Memory) (dst : Nat) (bytes : List Nat) : Memory :=
  fun a =>
    if (a + 4294967296 - dst % 4294967296) % 4294967296 < bytes.length then
      bytes.getD ((a + 4294967296 - dst % 4294967296) % 4294967296) 0
    else mem a

/-- The four bytes of a 32-bit value, least significant first (x86). -/
def bytes32 (v : Nat) : List Nat :=
  [v % 256, v / 256 % 256, v / 65536 % 256, v / 16777216 % 256]

/-- The 32-bit word stored at address `a`. -/
def word_at (mem : Memory) (a : Nat) : Nat :=
  mem a + 256 * mem (a + 1) + 65536 * mem (a + 2) + 16777216 * mem (a + 3)

/-- The local variables of `stack_constructor` together with the stack pointer `*esp`
and user memory. -/
structure StackFrame where
  esp : Nat
  mem : Memory
  argv_addr : Nat → Nat
  word_align : Nat

/-- The first loop of `stack_constructor`, `for (i = argc - 1; i >= 0; --i)`, with
`i + 1` iterations to go: `len = strlen (argv[i]) + 1` bytes of `argv[i]` are copied
below the stack pointer and the address is stored in `argv_addr[i]`.  The array
`argv_addr` has 128 slots.  An element of `argv` is the list of bytes found at the
pointer, followed by a NUL; lengths stay far below `2 ^ 31`, so `int` arithmetic on
them is exact. -/
def push_args (argv : List (List Nat)) : Nat → StackFrame → Except Fault StackFrame
  | 0, s => Except.ok s
  | i + 1, s =>
    match argv[i]? with
    | none => Except.error Fault.null_deref
    | some a =>
      if 128 ≤ i then Except.error Fault.buffer_overrun
      else
        let len := strlen a + 1
        let esp := ptr_sub s.esp len
        push_args argv i
          { esp := esp,
            mem := store_bytes s.mem esp ((a ++ [0]).take len),
            argv_addr := Function.update s.argv_addr i esp,
            word_align := s.word_align + len }

/-- The second loop of `stack_constructor`, with `i + 1` iterations to go: the stack
pointer goes down by 4 and `argv_addr[i]` is stored there. -/
def push_addrs : Nat → StackFrame → Except Fault StackFrame
  | 0, s => Except.ok s
  | i + 1, s =>
    if 128 ≤ i then Except.error Fault.buffer_overrun
    else
      let esp := ptr_sub s.esp 4
      push_addrs i
        { s with esp := esp, mem := store_bytes s.mem esp (bytes32 (s.argv_addr i)) }

/-- The function `stack_constructor (argc, argv, esp)`, started with `*esp = esp` on
memory `mem`: the new value of `*esp` and the memory afterwards.  `argv_addr` is not
initialised by the source; its slots start as 0 here and are written before they are
read. -/
def stack_constructor (argc : Nat) (argv : List (List Nat)) (esp : Nat) (mem : Memory) :
    Except Fault (Nat × Memory) :=
  match push_args argv argc
      { esp := esp, mem := mem, argv_addr := fun _ => 0, word_align := 0 } with
  | Except.error e => Except.error e
  | Except.ok s1 =>
    let word_align := (4 - s1.word_align % 4) % 4
    let esp2 := if word_align ≠ 0 then ptr_sub s1.esp word_align else s1.esp
    let mem2 :=
      if word_align ≠ 0 then store_bytes s1.mem esp2 (List.replicate word_align 0)
      else s1.mem
    let esp3 := ptr_sub esp2 4
    let mem3 := store_bytes mem2 esp3 (List.replicate 4 0)
    match push_addrs argc { s1 with esp := esp3, mem := mem3 } with
    | Except.error e => Except.error e
    | Except.ok s4 =>
      let mem5 := store_bytes s4.mem (ptr_sub s4.esp 4) (bytes32 s4.esp)
      let mem6 := store_bytes mem5 (ptr_sub s4.esp 8) (bytes32 argc)
      let mem7 := store_bytes mem6 (ptr_sub s4.esp 12) (List.replicate 4 0)
      Except.ok (ptr_sub s4.esp 12, mem7)

/-- The bytes of the first `n` strings of `argv` with their terminators. -/
def args_size (argv : List (List Nat)) (n : Nat) : Nat :=
  ((argv.take n).map (fun a => strlen a + 1)).sum

/-- The bytes that the argument-passing layout of `argv` takes on the stack: the strings
with their terminators, the padding to a multiple of 4, the null terminator of the
pointer array, one pointer for every string, the pointer to the array, the count and
the return address. -/
def frame_size (argv : List (List Nat)) : Nat :=
  args_size argv argv.length + (4 - args_size argv argv.length % 4) % 4 + 4
    + 4 * argv.length + 12

/-- The argument vector of `"echo hello"`. -/
def argv_echo_hello : List (List Nat) := [[101, 99, 104, 111], [104, 101, 108, 108, 111]]

/-- An argument vector of 129 copies of the string `"a"`. -/
def argv_129 : List (List Nat) := List.replicate 129 [97]

/-- A zero-filled memory. -/
def zero_memory : Memory := fun _ => 0

/-! ## `setup_stack` and `load` -/

/-- The executable header `struct Elf32_Ehdr`; `e_ident` holds its 16 bytes. -/
structure Elf32_Ehdr where
  e_ident : List Nat
  e_type : Nat
  e_machine : Nat
  e_version : Nat
  e_entry : Nat
  e_phoff : Nat
  e_shoff : Nat
  e_flags : Nat
  e_ehsize : Nat
  e_phentsize : Nat
  e_phnum : Nat
  e_shentsize : Nat
  e_shnum : Nat
  e_shstrndx : Nat
  deriving DecidableEq, Repr

/-- What `load` obtains from its collaborators: the page directory made by
`pagedir_create` (`none` for a null pointer), the file that `filesys_open` returns for
a name, the length of the executable, the header that `file_read` delivers at the start
of the file (`none` for a short read), the program header that `file_read` delivers
after `file_seek` to an offset (`none` for a short read), the outcome of the `k`-th
`create_pte` for the `i`-th program header, and the collaborators of `setup_stack`. -/
structure LoadOracle where
  pagedir_create : Option Nat
  filesys_open : List Nat → Option Nat
  file_length : Nat
  read_ehdr : Option Elf32_Ehdr
  read_phdr : Nat → Option Elf32_Phdr
  pte_ok : Nat → Nat → Bool
  stack : VmOracle

/-- Every program header that the file delivers has 32-bit fields. -/
def LoadOracle.wf (o : LoadOracle) : Prop :=
  ∀ ofs phdr, o.read_phdr ofs = some phdr → phdr.wf

/-- The user memory after a zero-filled frame has been installed at the top page. -/
def map_zero_page (mem : Memory) : Memory :=
  fun a => if ptr_sub PHYS_BASE PGSIZE ≤ a ∧ a < PHYS_BASE then 0 else mem a

/-- The function `setup_stack`: the result, the new value of `*esp`, the state and user
memory, in which the top page reads as zero once the frame is installed.
`((uint8_t *) PHYS_BASE) - PGSIZE` is a pointer subtraction. -/
def setup_stack (o : VmOracle) (esp : Nat) (st : VmState) (mem : Memory) :
    Bool × Nat × VmState × Memory :=
  match alloc_page_to_frame o st with
  | (none, st1) => (false, esp, st1, mem)
  | (some f, st1) =>
    match install_page o (ptr_sub PHYS_BASE PGSIZE) f.pfn true st1 with
    | (true, st2) =>
      match create_pte o.pte_ok (ptr_sub PHYS_BASE PGSIZE) pte_type.SWAP true none 0 0
          true with
      | none => (false, PHYS_BASE, st2, map_zero_page mem)
      | some pte =>
        (true, PHYS_BASE, page_insert_entry (set_frame_pte st2 f.pfn pte) pte,
          map_zero_page mem)
    | (false, st2) => (false, esp, free_frame st2 f.pfn, mem)

/-- The loop over the program headers in `load`, with `n` headers to go; `i` is the
index of the next header and `file_ofs` (an `off_t`, carried as its 32-bit pattern) its
offset.  The result is false when the loop leaves through `goto done`. -/
def load_headers (o : LoadOracle) (file : Option Nat) :
    Nat → Nat → Nat → VmState → List Event → Except Fault (Bool × VmState × List Event)
  | 0, _, _, st, ev => Except.ok (true, st, ev)
  | n + 1, i, file_ofs, st, ev =>
    if 2147483648 ≤ file_ofs ∨ o.file_length < file_ofs then Except.ok (false, st, ev)
    else
      let ev1 := ev ++ [Event.file_seek file_ofs, Event.file_read 32]
      match o.read_phdr file_ofs with
      | none => Except.ok (false, st, ev1)
      | some phdr =>
        let file_ofs1 := (file_ofs + 32) % 4294967296
        if phdr.p_type = PT_DYNAMIC ∨ phdr.p_type = PT_INTERP ∨ phdr.p_type = PT_SHLIB
        then Except.ok (false, st, ev1)
        else if phdr.p_type = PT_LOAD then
          match load_pt_load (o.pte_ok i) 1048576 file o.file_length phdr st with
          | Except.error e => Except.error e
          | Except.ok (false, st1, ev2) => Except.ok (false, st1, ev1 ++ ev2)
          | Except.ok (true, st1, ev2) =>
            load_headers o file n (i + 1) file_ofs1 st1 (ev1 ++ ev2)
        else load_headers o file n (i + 1) file_ofs1 st ev1

/-- The state that `load` leaves behind: its return value, the current thread, the
memory-management state, the calls made (in order), `*eip`, `*esp` and user memory. -/
structure LoadResult where
  success : Bool
  t : thread
  vm : VmState
  events : List Event
  eip : Nat
  esp : Nat
  mem : Memory

/-- The function `load`, run by thread `t`.  Every `goto done` and the normal end reach
`lock_release (&filesys_lock)`.  `filesys_open` on a null `argv[0]` (a command line
without a token) is a fault. -/
def load (o : LoadOracle) (file_name : List Nat) (t : thread) (st : VmState)
    (eip esp : Nat) (mem : Memory) : Except Fault LoadResult :=
  let t1 := { t with pagedir := o.pagedir_create }
  match o.pagedir_create with
  | none =>
    Except.ok { success := false, t := t1, vm := st, events := [Event.lock_release],
                eip := eip, esp := esp, mem := mem }
  | some pd =>
    match load_parse file_name with
    | Except.error e => Except.error e
    | Except.ok (argv, buf) =>
      match argv.head? with
      | none => Except.error Fault.null_deref
      | some none => Except.error Fault.null_deref
      | some (some argv0) =>
        let ev1 := [Event.pagedir_activate (some pd), Event.lock_acquire,
                    Event.filesys_open (cstr_at buf argv0)]
        match o.filesys_open (cstr_at buf argv0) with
        | none =>
          Except.ok { success := false, t := t1, vm := st,
                      events := ev1 ++ [Event.lock_release],
                      eip := eip, esp := esp, mem := mem }
        | some file =>
          let t2 := { t1 with file := some file }
          let ev2 := ev1 ++ [Event.file_read 52]
          match o.read_ehdr with
          | none =>
            Except.ok { success := false, t := t2, vm := st,
                        events := ev2 ++ [Event.lock_release],
                        eip := eip, esp := esp, mem := mem }
          | some ehdr =>
            if ehdr.e_ident.take 7 ≠ [127, 69, 76, 70, 1, 1, 1] ∨ ehdr.e_type ≠ 2 ∨
                ehdr.e_machine ≠ 3 ∨ ehdr.e_version ≠ 1 ∨ ehdr.e_phentsize ≠ 32 ∨
                ehdr.e_phnum > 1024 then
              Except.ok { success := false, t := t2, vm := st,
                          events := ev2 ++ [Event.lock_release],
                          eip := eip, esp := esp, mem := mem }
            else
              match load_headers o (some file) ehdr.e_phnum 0 ehdr.e_phoff st ev2 with
              | Except.error e => Except.error e
              | Except.ok (false, st1, ev3) =>
                Except.ok { success := false, t := t2, vm := st1,
                            events := ev3 ++ [Event.lock_release],
                            eip := eip, esp := esp, mem := mem }
              | Except.ok (true, st1, ev3) =>
                match setup_stack o.stack esp st1 mem with
                | (false, esp1, st2, mem1) =>
                  Except.ok { success := false, t := t2, vm := st2,
                              events := ev3 ++ [Event.lock_release],
                              eip := eip, esp := esp1, mem := mem1 }
                | (true, esp1, st2, mem1) =>
                  match stack_constructor argv.length
                      (argv.map (fun a => (buf.drop (a.getD 0)))) esp1 mem1 with
                  | Except.error e => Except.error e
                  | Except.ok (esp2, mem2) =>
                    Except.ok { success := true, t := t2, vm := st2,
                                events := ev3 ++ [Event.lock_release],
                                eip := ehdr.e_entry, esp := esp2, mem := mem2 }

/-! ## Sample inputs -/

/-- A child thread with tid 5 that has not run `start_process` yet: its `load_lock` is
0 and its `flag` holds the value `f0` left by thread creation. -/
def fresh_child (f0 : Int) : thread :=
  { tid := 5, exit_status := 0, flag := f0, load_lock := 0, child_lock := 0,
    mem_lock := 0, max_mapid := 0, pagedir := none, file := none }

/-- Collaborators of `process_execute` that all succeed, with `thread_create` returning
tid 5 and the given child on the caller's children list. -/
def exec_oracle (child : thread) : ExecOracle :=
  { palloc_ok := true, file_exists := fun _ => true, tid := 5, children := [child] }

/-- Collaborators of `process_execute` with a file system that holds exactly the file
`echo`. -/
def exec_oracle_echo (child : thread) : ExecOracle :=
  { palloc_ok := true, file_exists := fun n => decide (n = [101, 99, 104, 111]),
    tid := 5, children := [child] }

/-- Collaborators of the fault-handling code that all succeed; the allocator hands out
the frame with kernel page 100. -/
def vm_all_ok : VmOracle :=
  { frame := some 100, pd_set_ok := true, pte_ok := true, load_ok := true }

/-- Collaborators of the fault-handling code when the frame allocator has no frame. -/
def vm_no_frame : VmOracle :=
  { frame := none, pd_set_ok := true, pte_ok := true, load_ok := true }

/-- A process without mappings, page table entries and frames. -/
def vm_empty : VmState := { pagedir := [], page_table := [], frames := [] }

/-- A non-resident file-backed entry for the page at `0x08048000`. -/
def sample_pte : PTE :=
  { vpn := 134512640, type := pte_type.LOAD, writable := false, file := some 1,
    offset := 0, read_bytes := 4096, mem_flag := false, swap_slot := 0 }

/-- A thread with three map ids, an open executable and a page directory. -/
def sample_exiting : thread :=
  { tid := 5, exit_status := 7, flag := 1, load_lock := 0, child_lock := 0,
    mem_lock := 0, max_mapid := 2, pagedir := some 9, file := some 1 }

/-- A well-formed executable header that announces two program headers at offset 52. -/
def sample_ehdr : Elf32_Ehdr :=
  { e_ident := [127, 69, 76, 70, 1, 1, 1, 0, 0, 0, 0, 0, 0, 0, 0, 0],
    e_type := 2, e_machine := 3, e_version := 1, e_entry := 134512896, e_phoff := 52,
    e_shoff := 0, e_flags := 0, e_ehsize := 52, e_phentsize := 32, e_phnum := 2,
    e_shentsize := 0, e_shnum := 0, e_shstrndx := 0 }

/-- A loadable segment at `0x08048000` with 5000 bytes in the file and 9000 in memory. -/
def sample_phdr : Elf32_Phdr :=
  { p_type := 1, p_offset := 4096, p_vaddr := 134512640, p_paddr := 0, p_filesz := 5000,
    p_memsz := 9000, p_flags := 6, p_align := 4096 }

/-- A loadable segment that starts in page zero, at `0x234`. -/
def sample_phdr_page_zero : Elf32_Phdr :=
  { p_type := 1, p_offset := 564, p_vaddr := 564, p_paddr := 0, p_filesz := 5000,
    p_memsz := 9000, p_flags := 6, p_align := 4096 }

/-- Collaborators of `load` for an executable `echo` of 100000 bytes whose program
headers are `sample_phdr` and `sample_phdr_page_zero`; every allocation succeeds. -/
def sample_load_oracle : LoadOracle :=
  { pagedir_create := some 77,
    filesys_open := fun n => if n = [101, 99, 104, 111] then some 3 else none,
    file_length := 100000,
    read_ehdr := some sample_ehdr,
    read_phdr := fun ofs =>
      if ofs = 52 then some sample_phdr
      else if ofs = 84 then some sample_phdr_page_zero
      else none,
    pte_ok := fun _ _ => true,
    stack := vm_all_ok }

/-! ## The file system lock -/

/-- Follows `filesys_lock` through the calls of the current thread, starting with the
lock held or not: `none` when a `lock_release` comes while the lock is not held or a
`lock_acquire` while it is held (both are failed assertions in `threads/synch.c`),
otherwise whether the lock is held after the last call. -/
def lock_after (held : Bool) : List Event → Option Bool
  | [] => some held
  | Event.lock_acquire :: rest => if held then none else lock_after true rest
  | Event.lock_release :: rest => if held then lock_after false rest else none
  | _ :: rest => lock_after held rest

/-- Collaborators of `load` when `pagedir_create` cannot allocate a page directory. -/
def load_oracle_no_pagedir : LoadOracle :=
  { pagedir_create := none,
    filesys_open := fun n => if n = [101, 99, 104, 111] then some 3 else none,
    file_length := 100000,
    read_ehdr := some sample_ehdr,
    read_phdr := fun ofs =>
      if ofs = 52 then some sample_phdr
      else if ofs = 84 then some sample_phdr
      else none,
    pte_ok := fun _ _ => true,
    stack := vm_all_ok }

/-- Collaborators of `load` for a well-formed executable `echo` with two loadable
segments at `0x08048000`; every allocation succeeds. -/
def load_oracle_echo : LoadOracle :=
  { pagedir_create := some 77,
    filesys_open := fun n => if n = [101, 99, 104, 111] then some 3 else none,
    file_length := 100000,
    read_ehdr := some sample_ehdr,
    read_phdr := fun ofs =>
      if ofs = 52 then some sample_phdr
      else if ofs = 84 then some { sample_phdr with p_type := 4 }
      else none,
    pte_ok := fun _ _ => true,
    stack := vm_all_ok }

/-- Three children with tids 3, 4 and 6 and exit statuses 0, 7 and -1, used to
instantiate the statements about `process_wait`. -/
def sample_children : List thread :=
  [ { tid := 3, exit_status := 0, flag := 1, load_lock := 0, child_lock := 1,
      mem_lock := 0, max_mapid := 0, pagedir := none, file := none },
    { tid := 4, exit_status := 7, flag := 1, load_lock := 0, child_lock := 1,
      mem_lock := 0, max_mapid := 0, pagedir := none, file := none },
    { tid := 6, exit_status := -1, flag := 1, load_lock := 0, child_lock := 0,
      mem_lock := 0, max_mapid := 0, pagedir := none, file := none } ]

/-! # Theorems -/

/-! ## `process_wait` -/

theorem process_wait_absent (child_tid : Int) (children : List thread)
    (h : ∀ c ∈ children, c.tid ≠ child_tid) :
    process_wait child_tid children
      = { status := -1, children := children, events := [] } := by
  induction children with
  | nil => rfl
  | cons c rest ih =>
    have hc : c.tid ≠ child_tid := h c (List.mem_cons_self _ _)
    have hrest : ∀ d ∈ rest, d.tid ≠ child_tid :=
      fun d hd => h d (List.mem_cons_of_mem _ hd)
    simp [process_wait, hc, ih hrest]

theorem process_wait_present (child_tid : Int) (pre post : List thread) (c : thread)
    (hpre : ∀ d ∈ pre, d.tid ≠ child_tid) (hc : c.tid = child_tid) :
    process_wait child_tid (pre ++ c :: post)
      = { status := c.exit_status, children := pre ++ post,
          events := [Event.sema_down child_tid Sema.child_lock,
                     Event.sema_up child_tid Sema.mem_lock] } := by
  induction pre with
  | nil => simp [process_wait, hc]
  | cons d pre ih =>
    have hd : d.tid ≠ child_tid := hpre d (List.mem_cons_self _ _)
    have hrest : ∀ e ∈ pre, e.tid ≠ child_tid :=
      fun e he => hpre e (List.mem_cons_of_mem _ he)
    simp [process_wait, hd, ih hrest]

/-- C1: for every children list and every tid that is not the tid of any entry of the
list, `process_wait` returns -1, performs no semaphore operation (so it cannot block)
and leaves the children list unchanged. -/
theorem process_wait_not_child (child_tid : Int) (children : List thread)
    (h : ∀ c ∈ children, c.tid ≠ child_tid) :
    (process_wait child_tid children).status = -1 ∧
    (process_wait child_tid children).events = [] ∧
    (process_wait child_tid children).children = children := by
  rw [process_wait_absent child_tid children h]
  exact ⟨rfl, rfl, rfl⟩

theorem process_wait_not_child_witness :
    (∀ c ∈ sample_children, c.tid ≠ 5) ∧
    (process_wait 5 sample_children).status = -1 ∧
    (process_wait 5 sample_children).events = [] ∧
    (process_wait 5 sample_children).children = sample_children :=
  ⟨by decide, process_wait_not_child 5 sample_children (by decide)⟩

/-- C2: in a children list with pairwise distinct tids that contains a child `c` with
tid `T`, `process_wait T` returns the exit status recorded in `c`, removes exactly `c`
from the list (the other children stay, in order), waits on the child's `child_lock`
and then signals its `mem_lock`; a second `process_wait T` on the resulting list
returns -1 without any semaphore operation. -/
theorem process_wait_child_once (T : Int) (children : List thread) (c : thread)
    (hdistinct : children.Pairwise (fun a b => a.tid ≠ b.tid))
    (hmem : c ∈ children) (hT : c.tid = T) :
    (process_wait T children).status = c.exit_status ∧
    (process_wait T children).children = children.erase c ∧
    (∃ before after, children = before ++ c :: after ∧
      (process_wait T children).children = before ++ after) ∧
    (process_wait T children).events
      = [Event.sema_down T Sema.child_lock, Event.sema_up T Sema.mem_lock] ∧
    (process_wait T (process_wait T children).children).status = -1 ∧
    (process_wait T (process_wait T children).children).events = [] ∧
    (process_wait T (process_wait T children).children).children
      = (process_wait T children).children := by
  obtain ⟨before, after, rfl⟩ := List.append_of_mem hmem
  have hp := List.pairwise_append.mp hdistinct
  have hbefore : ∀ d ∈ before, d.tid ≠ T := fun d hd =>
    hT ▸ hp.2.2 d hd c (List.mem_cons_self _ _)
  have hafter : ∀ d ∈ after, d.tid ≠ T := fun d hd heq =>
    (List.pairwise_cons.mp hp.2.1).1 d hd (by rw [hT, heq])
  have hnot : c ∉ before := fun hin => hbefore c hin hT
  have hrest : ∀ d ∈ before ++ after, d.tid ≠ T := by
    intro d hd
    rcases List.mem_append.mp hd with h | h
    · exact hbefore d h
    · exact hafter d h
  have herase : (before ++ c :: after).erase c = before ++ after := by
    rw [List.erase_append_right _ hnot, List.erase_cons_head]
  rw [process_wait_present T before after c hbefore hT]
  dsimp only
  rw [process_wait_absent T (before ++ after) hrest, herase]
  exact ⟨rfl, rfl, ⟨before, after, rfl, rfl⟩, rfl, rfl, rfl, rfl⟩

theorem process_wait_child_once_witness :
    (process_wait 4 sample_children).status = 7 ∧
    (process_wait 4 sample_children).events
      = [Event.sema_down 4 Sema.child_lock, Event.sema_up 4 Sema.mem_lock] ∧
    (process_wait 4 (process_wait 4 sample_children).children).status = -1 := by
  have h := process_wait_child_once 4 sample_children
    { tid := 4, exit_status := 7, flag := 1, load_lock := 0, child_lock := 1,
      mem_lock := 0, max_mapid := 0, pagedir := none, file := none }
    (by decide) (by decide) rfl
  exact ⟨h.1, h.2.2.2.1, h.2.2.2.2.1⟩

/-! ## `start_process` and `process_execute` -/

/-- C3: in `start_process` the `sema_up` on `load_lock` comes before the store to
`flag`, on every run: the calls are `page_table_init`, `load`, `sema_up (&load_lock)`,
`palloc_free_page` and only then the store of the outcome.  So after the third step the
semaphore is up while `flag` still holds the value `f0` left by thread creation, and
only after the fifth step does it hold the outcome.  Hence a caller of
`process_execute` that runs again right after the `sema_up` reads the old flag: with a
stale 1, a failed load makes `process_execute` return the tid 5, not an error; with a
stale 0, a successful load makes it return -1. -/
theorem start_process_signals_before_flag :
    (∀ (t : thread) (success : Bool),
      start_process t success =
        [Event.page_table_init, Event.load_called success,
         Event.sema_up t.tid Sema.load_lock, Event.palloc_free_page,
         Event.set_flag (if success then 1 else 0),
         if success then Event.intr_exit else Event.Exit (-1)]) ∧
    (∀ (f0 : Int) (success : Bool),
      (child_after 3 (fresh_child f0) success).load_lock = 1 ∧
      (child_after 3 (fresh_child f0) success).flag = f0 ∧
      (child_after 5 (fresh_child f0) success).flag = (if success then 1 else 0)) ∧
    process_execute (exec_oracle (child_after 3 (fresh_child 1) false)) cmdline_echo_hello
      = Except.ok (5, [Event.palloc_get_page, Event.filesys_open [101, 99, 104, 111],
          Event.thread_create [101, 99, 104, 111],
          Event.sema_down 5 Sema.load_lock]) ∧
    process_execute (exec_oracle (child_after 3 (fresh_child 0) true)) cmdline_echo_hello
      = Except.ok (-1, [Event.palloc_get_page, Event.filesys_open [101, 99, 104, 111],
          Event.thread_create [101, 99, 104, 111],
          Event.sema_down 5 Sema.load_lock]) := by
  refine ⟨?_, ?_, rfl, rfl⟩
  · intro t success
    cases success <;> rfl
  · intro f0 success
    cases success <;> exact ⟨rfl, rfl, rfl⟩

/-- C9: for the command line `" echo hello"`, which begins with a space,
`process_execute` hands `" echo"` (the array `cmd` from its first byte) to
`filesys_open`, while `load` opens `argv[0] = "echo"`, the first token; with a file
system that holds `echo`, `process_execute` returns `TID_ERROR` before creating the
thread.  Without the leading space both names are `"echo"`. -/
theorem process_execute_name_keeps_leading_space :
    process_execute_cmd cmdline_space_echo_hello = [32, 101, 99, 104, 111] ∧
    load_argv cmdline_space_echo_hello
      = Except.ok [some [101, 99, 104, 111], some [104, 101, 108, 108, 111]] ∧
    process_execute (exec_oracle_echo (child_after 6 (fresh_child 0) true))
        cmdline_space_echo_hello
      = Except.ok (TID_ERROR, [Event.palloc_get_page,
          Event.filesys_open [32, 101, 99, 104, 111]]) ∧
    process_execute_cmd cmdline_echo_hello = [101, 99, 104, 111] ∧
    load_argv cmdline_echo_hello
      = Except.ok [some [101, 99, 104, 111], some [104, 101, 108, 108, 111]] := by
  exact ⟨rfl, rfl, rfl, rfl, rfl⟩

/-! ## `process_exit` -/

theorem munmap_loop_never_ends (fuel i max_mapid : Nat) (hmax : 4294967295 ≤ max_mapid)
    (hi : i < 4294967296) : munmap_loop fuel i max_mapid = none := by
  induction fuel generalizing i with
  | zero =>
    unfold munmap_loop
    rw [if_pos (by omega)]
  | succ fuel ih =>
    unfold munmap_loop
    rw [if_pos (by omega)]
    simp [ih ((i + 1) % 4294967296) (Nat.mod_lt _ (by norm_num))]

theorem munmap_loop_complete (fuel i max_mapid : Nat) (hmax : max_mapid < 4294967295)
    (hi : i ≤ max_mapid + 1) (hfuel : max_mapid + 1 - i ≤ fuel) :
    munmap_loop fuel i max_mapid
      = some ((List.range' i (max_mapid + 1 - i)).map Event.Munmap) := by
  induction fuel generalizing i with
  | zero =>
    have hi' : i = max_mapid + 1 := by omega
    subst hi'
    unfold munmap_loop
    rw [if_neg (by omega)]
    simp
  | succ fuel ih =>
    unfold munmap_loop
    by_cases hle : i ≤ max_mapid
    · rw [if_pos hle]
      have hmod : (i + 1) % 4294967296 = i + 1 := Nat.mod_eq_of_lt (by omega)
      have hlen : max_mapid + 1 - i = (max_mapid + 1 - (i + 1)) + 1 := by omega
      simp only [hmod]
      rw [ih (i + 1) (by omega) (by omega), hlen]
      simp [List.range'_succ]
    · rw [if_neg hle]
      have hi' : max_mapid + 1 - i = 0 := by omega
      simp [hi']

theorem munmap_loop_partial (fuel i max_mapid : Nat) (hmax : max_mapid < 4294967295)
    (hi : i ≤ max_mapid + 1) :
    munmap_loop fuel i max_mapid = none ∨
    munmap_loop fuel i max_mapid
      = some ((List.range' i (max_mapid + 1 - i)).map Event.Munmap) := by
  by_cases hfuel : max_mapid + 1 - i ≤ fuel
  · exact Or.inr (munmap_loop_complete fuel i max_mapid hmax hi hfuel)
  · left
    induction fuel generalizing i with
    | zero =>
      unfold munmap_loop
      rw [if_pos (by omega)]
    | succ fuel ih =>
      unfold munmap_loop
      rw [if_pos (by omega)]
      have hmod : (i + 1) % 4294967296 = i + 1 := Nat.mod_eq_of_lt (by omega)
      simp only [hmod]
      rw [ih (i + 1) (by omega) (by omega)]
      rfl

/-- C10: every run of `process_exit` that gets past the `Munmap` loop performs its
calls in this order: `Munmap` for the map ids 0 to `max_mapid`, `file_close`,
`page_table_destroy`, then, when the thread has a page directory, the store of null
to `pagedir`, `pagedir_activate (NULL)` and `pagedir_destroy` of the old directory, then
`sema_up` on `child_lock` and last `sema_down` on `mem_lock`.  The run gets past the
loop whenever `max_mapid` is below the largest 32-bit unsigned value. -/
theorem process_exit_ordered (t : thread) (fuel : Nat) :
    (process_exit fuel t = none ∨
      (process_exit fuel t).map Prod.fst = some (process_exit_order t)) ∧
    (t.max_mapid < 4294967295 → t.max_mapid < fuel →
      (process_exit fuel t).map Prod.fst = some (process_exit_order t) ∧
      (process_exit fuel t).map (fun r => r.2.pagedir) = some none) := by
  have key : t.max_mapid < 4294967295 → t.max_mapid + 1 ≤ fuel →
      (process_exit fuel t).map Prod.fst = some (process_exit_order t) ∧
      (process_exit fuel t).map (fun r => r.2.pagedir) = some none := by
    intro hmax hfuel
    have h := munmap_loop_complete fuel 0 t.max_mapid hmax (by omega) (by omega)
    rw [Nat.sub_zero, ← List.range_eq_range'] at h
    unfold process_exit process_exit_order
    rw [h]
    cases hpd : t.pagedir <;> simp [hpd]
  constructor
  · by_cases hmax : t.max_mapid < 4294967295
    · rcases munmap_loop_partial fuel 0 t.max_mapid hmax (by omega) with h | h
      · left
        unfold process_exit
        rw [h]
      · right
        rw [Nat.sub_zero, ← List.range_eq_range'] at h
        unfold process_exit process_exit_order
        rw [h]
        cases hpd : t.pagedir <;> simp
    · left
      unfold process_exit
      rw [munmap_loop_never_ends fuel 0 t.max_mapid (by omega) (by norm_num)]
  · intro hmax hfuel
    exact key hmax hfuel

theorem process_exit_ordered_witness :
    (process_exit 3 sample_exiting).map Prod.fst
      = some [Event.Munmap 0, Event.Munmap 1, Event.Munmap 2, Event.file_close (some 1),
          Event.page_table_destroy, Event.set_pagedir_null, Event.pagedir_activate none,
          Event.pagedir_destroy 9, Event.sema_up 5 Sema.child_lock,
          Event.sema_down 5 Sema.mem_lock] :=
  ((process_exit_ordered sample_exiting 3).2 (by decide) (by decide)).1

/-! ## Bit masks and pointer arithmetic -/

theorem and_PGMASK (x : Nat) : x &&& PGMASK = x % PGSIZE :=
  Nat.and_pow_two_sub_one_eq_mod x 12

theorem testBit_NOT_PGMASK (i : Nat) :
    Nat.testBit NOT_PGMASK i = (decide (12 ≤ i) && decide (i < 32)) := by
  by_cases h : i < 32
  · interval_cases i <;> rfl
  · have hfalse : Nat.testBit NOT_PGMASK i = false := by
      apply Nat.testBit_lt_two_pow
      calc NOT_PGMASK < 2 ^ 32 := by norm_num [NOT_PGMASK]
        _ ≤ 2 ^ i := Nat.pow_le_pow_right (by norm_num) (Nat.le_of_not_lt h)
    simp [hfalse, h]

theorem and_NOT_PGMASK (x : Nat) (hx : x < 4294967296) :
    x &&& NOT_PGMASK = x / PGSIZE * PGSIZE := by
  apply Nat.eq_of_testBit_eq
  intro i
  rw [Nat.testBit_and, testBit_NOT_PGMASK]
  have e : x / PGSIZE * PGSIZE = 2 ^ 12 * (x / 2 ^ 12) := by
    norm_num [PGSIZE, Nat.mul_comm]
  rw [e, Nat.testBit_mul_pow_two, ← Nat.shiftRight_eq_div_pow, Nat.testBit_shiftRight]
  by_cases h12 : 12 ≤ i
  · by_cases h32 : i < 32
    · simp [h12, h32, Nat.add_sub_cancel' h12]
    · have hfalse : Nat.testBit x i = false := by
        apply Nat.testBit_lt_two_pow
        calc x < 2 ^ 32 := by norm_num; exact hx
          _ ≤ 2 ^ i := Nat.pow_le_pow_right (by norm_num) (Nat.le_of_not_lt h32)
      simp [h12, h32, hfalse]
  · simp [h12]

theorem pg_round_down_eq (va : Nat) (h : va < 4294967296) :
    pg_round_down va = va / PGSIZE * PGSIZE :=
  and_NOT_PGMASK va h

theorem ptr_sub_of_le (p n : Nat) (hp : p < 4294967296) (hn : n ≤ p) :
    ptr_sub p n = p - n := by
  unfold ptr_sub
  have h1 : n % 4294967296 = n := Nat.mod_eq_of_lt (by omega)
  rw [h1]
  omega

/-! ## `stack_growth` and `handle_mm_fault` -/

theorem stack_growth_declines (o : VmOracle) (addr esp : Nat) (st : VmState)
    (hesp : esp < 4294967296)
    (h : ¬ addr < PHYS_BASE ∨ addr < PHYS_BASE - 8388608 ∨ addr + 32 < esp) :
    stack_growth o addr esp st = (false, st) := by
  unfold stack_growth
  have hb : ptr_sub PHYS_BASE 8388608 = PHYS_BASE - 8388608 := by decide
  by_cases h1 : (!is_user_vaddr addr || decide (addr < ptr_sub PHYS_BASE 8388608)) = true
  · rw [if_pos h1]
  · rw [if_neg h1]
    have h2 : addr < ptr_sub esp 32 := by
      simp only [is_user_vaddr, hb, Bool.or_eq_true, Bool.not_eq_true',
        decide_eq_false_iff_not, decide_eq_true_eq, not_or, not_not] at h1
      rcases h with h | h | h
      · exact absurd h1.1 h
      · exact absurd h h1.2
      · rw [ptr_sub_of_le esp 32 hesp (by omega)]; omega
    rw [if_pos h2]

theorem stack_growth_grows (o : VmOracle) (addr esp : Nat) (st : VmState) (pfn : Nat)
    (hesp : esp < 4294967296)
    (huser : addr < PHYS_BASE) (hdepth : PHYS_BASE - 8388608 ≤ addr)
    (hnear : esp ≤ addr + 32) (hesp32 : 32 ≤ esp)
    (hframe : o.frame = some pfn)
    (hfree : pagedir_get_page st.pagedir (pg_round_down addr) = none)
    (hpd : o.pd_set_ok = true) (hpte : o.pte_ok = true) :
    stack_growth o addr esp st =
      (true,
       { pagedir := (pg_round_down addr, pfn, true) :: st.pagedir,
         page_table := st.page_table ++
           [{ vpn := pg_round_down addr, type := pte_type.SWAP, writable := true,
              file := none, offset := 0, read_bytes := 0, mem_flag := true,
              swap_slot := 0 }],
         frames := (set_frame_pte
           { st with frames := st.frames ++ [{ pfn := pfn, pte := none }] } pfn
           { vpn := pg_round_down addr, type := pte_type.SWAP, writable := true,
             file := none, offset := 0, read_bytes := 0, mem_flag := true,
             swap_slot := 0 }).frames }) := by
  unfold stack_growth
  have hb : ptr_sub PHYS_BASE 8388608 = PHYS_BASE - 8388608 := by decide
  have h1 : ¬ ((!is_user_vaddr addr || decide (addr < ptr_sub PHYS_BASE 8388608))
      = true) := by
    simp only [is_user_vaddr, hb, Bool.or_eq_true, Bool.not_eq_true',
      decide_eq_false_iff_not, decide_eq_true_eq, not_or, not_not]
    exact ⟨huser, by omega⟩
  have h2 : ¬ addr < ptr_sub esp 32 := by
    rw [ptr_sub_of_le esp 32 hesp hesp32]; omega
  rw [if_neg h1, if_neg h2]
  simp [alloc_page_to_frame, hframe, install_page, hfree, hpd, create_pte, hpte,
    page_insert_entry, set_frame_pte]

/-- C7, as stated, fails for a stack pointer below 32: the fault address `0xbffffffc`
is a user address, is not below `PHYS_BASE - 0x800000` and is not more than 32 bytes
below `esp = 16`, every allocation succeeds, and `stack_growth` still declines,
because `esp - 32` wraps to `0xfffffff0`. -/
theorem stack_growth_small_esp :
    3221225468 < PHYS_BASE ∧ ¬ (3221225468 < PHYS_BASE - 8388608) ∧
    ¬ (3221225468 + 32 < 16) ∧
    vm_all_ok.frame = some 100 ∧ vm_all_ok.pd_set_ok = true ∧ vm_all_ok.pte_ok = true ∧
    pagedir_get_page vm_empty.pagedir (pg_round_down 3221225468) = none ∧
    ptr_sub 16 32 = 4294967280 ∧
    stack_growth vm_all_ok 3221225468 16 vm_empty = (false, vm_empty) := by
  decide

/-- C7, amended: for 32-bit `addr` and `esp`, `stack_growth` returns false and leaves
the frames and the page table entries as they are whenever `addr` is outside user
space, `addr < PHYS_BASE - 0x800000`, or `addr` is more than 32 bytes below `esp`; in
every other case in which `esp` is at least 32, if the allocator returns a frame, the
page is not mapped yet, `pagedir_set_page` succeeds and `create_pte` succeeds, it
returns true and registers exactly one new entry, resident, writable and `SWAP`, at
`addr` rounded down to a page boundary. -/
theorem stack_growth_bounds (o : VmOracle) (addr esp : Nat) (st : VmState)
    (haddr : addr < 4294967296) (hesp : esp < 4294967296) :
    ((¬ addr < PHYS_BASE ∨ addr < PHYS_BASE - 8388608 ∨ addr + 32 < esp) →
      stack_growth o addr esp st = (false, st)) ∧
    ((addr < PHYS_BASE ∧ PHYS_BASE - 8388608 ≤ addr ∧ esp ≤ addr + 32 ∧ 32 ≤ esp) →
      ∀ pfn, o.frame = some pfn →
        pagedir_get_page st.pagedir (pg_round_down addr) = none →
        o.pd_set_ok = true → o.pte_ok = true →
        (stack_growth o addr esp st).1 = true ∧
        (stack_growth o addr esp st).2.page_table = st.page_table ++
          [{ vpn := addr / PGSIZE * PGSIZE, type := pte_type.SWAP, writable := true,
             file := none, offset := 0, read_bytes := 0, mem_flag := true,
             swap_slot := 0 }] ∧
        (stack_growth o addr esp st).2.pagedir
          = (addr / PGSIZE * PGSIZE, pfn, true) :: st.pagedir) := by
  constructor
  · exact stack_growth_declines o addr esp st hesp
  · rintro ⟨huser, hdepth, hnear, hesp32⟩ pfn hframe hfree hpd hpte
    rw [stack_growth_grows o addr esp st pfn hesp huser hdepth hnear hesp32 hframe hfree
      hpd hpte, pg_round_down_eq addr haddr]
    exact ⟨rfl, rfl, rfl⟩

theorem stack_growth_bounds_witness :
    stack_growth vm_all_ok 3221221343 3221221376 vm_empty = (false, vm_empty) ∧
    (stack_growth vm_all_ok 3221221372 3221221376 vm_empty).1 = true ∧
    (stack_growth vm_all_ok 3221221372 3221221376 vm_empty).2.page_table =
      [{ vpn := 3221217280, type := pte_type.SWAP, writable := true,
         file := none, offset := 0, read_bytes := 0, mem_flag := true,
         swap_slot := 0 }] := by
  have h1 := (stack_growth_bounds vm_all_ok 3221221343 3221221376 vm_empty
    (by decide) (by decide)).1 (by decide)
  have h2 := (stack_growth_bounds vm_all_ok 3221221372 3221221376 vm_empty
    (by decide) (by decide)).2 (by decide) 100 rfl (by decide) rfl rfl
  exact ⟨h1, h2.1, h2.2.1⟩

/-- C8: when the frame allocator returns no frame, `handle_mm_fault` does not return
false: with the null test commented out, the store `f->pte = pte` dereferences the null
pointer, for every page table entry and every state. -/
theorem handle_mm_fault_without_frame (o : VmOracle) (pte : PTE) (st : VmState)
    (h : o.frame = none) :
    handle_mm_fault o pte st = Except.error Fault.null_deref := by
  simp [handle_mm_fault, alloc_page_to_frame, h]

theorem handle_mm_fault_without_frame_witness :
    handle_mm_fault vm_no_frame sample_pte vm_empty = Except.error Fault.null_deref :=
  handle_mm_fault_without_frame vm_no_frame sample_pte vm_empty rfl

/-! ## `load_segment` -/

theorem segment_entry_zero (file : Option Nat) (writable : Bool) (ofs upage read_bytes : Nat)
    (hofs : ofs < 4294967296) (hup : upage < 4294967296) :
    segment_entry file writable ofs upage read_bytes 0 =
      { vpn := upage, type := pte_type.LOAD, writable := writable, file := file,
        offset := ofs, read_bytes := if read_bytes < PGSIZE then read_bytes else PGSIZE,
        mem_flag := false, swap_slot := 0 } := by
  unfold segment_entry
  have h1 : (upage + 0 * PGSIZE) % 4294967296 = upage := by
    rw [Nat.zero_mul, Nat.add_zero]; exact Nat.mod_eq_of_lt hup
  have h2 : (ofs + min (0 * PGSIZE) read_bytes) % 4294967296 = ofs := by
    rw [Nat.zero_mul, Nat.zero_min, Nat.add_zero]; exact Nat.mod_eq_of_lt hofs
  have h3 : min PGSIZE (read_bytes - min (0 * PGSIZE) read_bytes) = if read_bytes < PGSIZE then read_bytes else PGSIZE := by
    rw [Nat.zero_mul, Nat.zero_min, Nat.sub_zero]
    split_ifs with h <;> simp only [PGSIZE] at * <;> omega
  rw [h1, h2, h3]

theorem segment_entry_succ (file : Option Nat) (writable : Bool) (ofs upage read_bytes j : Nat) :
    segment_entry file writable
        ((ofs + (if read_bytes < PGSIZE then read_bytes else PGSIZE)) % 4294967296)
        ((upage + PGSIZE) % 4294967296)
        (read_bytes - (if read_bytes < PGSIZE then read_bytes else PGSIZE)) j
      = segment_entry file writable ofs upage read_bytes (j + 1) := by
  unfold segment_entry
  have h1 : ((upage + PGSIZE) % 4294967296 + j * PGSIZE) % 4294967296
      = (upage + (j + 1) * PGSIZE) % 4294967296 := by
    simp only [PGSIZE]; omega
  have h2 : ((ofs + (if read_bytes < PGSIZE then read_bytes else PGSIZE)) % 4294967296
        + min (j * PGSIZE) (read_bytes - (if read_bytes < PGSIZE then read_bytes else PGSIZE))) % 4294967296
      = (ofs + min ((j + 1) * PGSIZE) read_bytes) % 4294967296 := by
    simp only [PGSIZE]
    split_ifs with h <;> omega
  have h3 : min PGSIZE (read_bytes - (if read_bytes < PGSIZE then read_bytes else PGSIZE)
        - min (j * PGSIZE) (read_bytes - (if read_bytes < PGSIZE then read_bytes else PGSIZE)))
      = min PGSIZE (read_bytes - min ((j + 1) * PGSIZE) read_bytes) := by
    simp only [PGSIZE]
    split_ifs with h <;> omega
  rw [h1, h2, h3]


theorem load_segment_loop_entries (pte_ok : Nat → Bool) (file : Option Nat) (writable : Bool)
    (fuel : Nat) : ∀ (k ofs upage read_bytes zero_bytes : Nat) (st : VmState),
    ofs < 4294967296 → upage < 4294967296 → read_bytes < 4294967296 → zero_bytes < 4294967296 →
    (read_bytes + zero_bytes) % PGSIZE = 0 → (read_bytes + zero_bytes) / PGSIZE ≤ fuel →
    ∃ m b, m ≤ (read_bytes + zero_bytes) / PGSIZE ∧
      load_segment_loop pte_ok file writable fuel k ofs upage read_bytes zero_bytes st
        = Except.ok (b,
            { st with
              page_table := st.page_table ++
                (List.range m).map (segment_entry file writable ofs upage read_bytes) }) ∧
      ((∀ j, pte_ok j = true) → m = (read_bytes + zero_bytes) / PGSIZE ∧ b = true) := by
  induction fuel with
  | zero =>
    intro k ofs upage read_bytes zero_bytes st hofs hup hread hzero hmul hfuel
    have hz : read_bytes = 0 ∧ zero_bytes = 0 := by
      simp only [PGSIZE] at hmul hfuel; omega
    obtain ⟨rfl, rfl⟩ := hz
    refine ⟨0, true, Nat.zero_le _, ?_, fun _ => ⟨by simp [PGSIZE], rfl⟩⟩
    unfold load_segment_loop
    simp
  | succ fuel ih =>
    intro k ofs upage read_bytes zero_bytes st hofs hup hread hzero hmul hfuel
    by_cases hz : 0 < read_bytes ∨ 0 < zero_bytes
    · unfold load_segment_loop
      rw [if_pos hz]
      cases hok : pte_ok k with
      | false =>
        refine ⟨0, false, Nat.zero_le _, ?_, fun hall => ?_⟩
        · simp [create_pte]
        · rw [hall k] at hok; exact absurd hok (by simp)
      | true =>
        have hprb : (read_bytes + 4294967296 - (if read_bytes < PGSIZE then read_bytes else PGSIZE)) % 4294967296
            = read_bytes - (if read_bytes < PGSIZE then read_bytes else PGSIZE) := by
          simp only [PGSIZE]; split_ifs <;> omega
        have hpzb : (zero_bytes + 4294967296 - (PGSIZE - (if read_bytes < PGSIZE then read_bytes else PGSIZE)))
            % 4294967296 = zero_bytes - (PGSIZE - (if read_bytes < PGSIZE then read_bytes else PGSIZE)) := by
          simp only [PGSIZE] at hmul ⊢; split_ifs <;> omega
        have hsum : read_bytes - (if read_bytes < PGSIZE then read_bytes else PGSIZE) +
            (zero_bytes - (PGSIZE - (if read_bytes < PGSIZE then read_bytes else PGSIZE)))
            = read_bytes + zero_bytes - PGSIZE := by
          simp only [PGSIZE] at hmul ⊢; split_ifs <;> omega
        have hge : PGSIZE ≤ read_bytes + zero_bytes := by
          simp only [PGSIZE] at hmul ⊢; omega
        have hdiv : (read_bytes + zero_bytes) / PGSIZE = (read_bytes + zero_bytes - PGSIZE) / PGSIZE + 1 := by
          simp only [PGSIZE] at hmul hge ⊢; omega
        obtain ⟨m, b, hm, hrun, hall⟩ := ih (k + 1)
          ((ofs + (if read_bytes < PGSIZE then read_bytes else PGSIZE)) % 4294967296)
          ((upage + PGSIZE) % 4294967296)
          (read_bytes - (if read_bytes < PGSIZE then read_bytes else PGSIZE))
          (zero_bytes - (PGSIZE - (if read_bytes < PGSIZE then read_bytes else PGSIZE)))
          (page_insert_entry st
            { vpn := upage, type := pte_type.LOAD, writable := writable, file := file,
              offset := ofs, read_bytes := if read_bytes < PGSIZE then read_bytes else PGSIZE,
              mem_flag := false, swap_slot := 0 })
          (Nat.mod_lt _ (by norm_num)) (Nat.mod_lt _ (by norm_num))
          (by omega) (by omega)
          (by rw [hsum]; simp only [PGSIZE] at hmul hge ⊢; omega)
          (by rw [hsum]; omega)
        refine ⟨m + 1, b, by rw [hsum] at hm; omega, ?_, fun h => ?_⟩
        · simp only [create_pte, if_true, hprb, hpzb]
          rw [hrun]
          simp only [page_insert_entry, List.range_succ_eq_map, List.map_cons, List.map_map,
            segment_entry_zero file writable ofs upage read_bytes hofs hup]
          have hfun : (segment_entry file writable
              ((ofs + (if read_bytes < PGSIZE then read_bytes else PGSIZE)) % 4294967296)
              ((upage + PGSIZE) % 4294967296)
              (read_bytes - (if read_bytes < PGSIZE then read_bytes else PGSIZE)))
              = (segment_entry file writable ofs upage read_bytes) ∘ Nat.succ := by
            funext j
            exact segment_entry_succ file writable ofs upage read_bytes j
          rw [hfun]
          simp
        · obtain ⟨h1, h2⟩ := hall h
          rw [hsum] at h1
          exact ⟨by omega, h2⟩
    · have hz' : read_bytes = 0 ∧ zero_bytes = 0 := by omega
      obtain ⟨rfl, rfl⟩ := hz'
      refine ⟨0, true, Nat.zero_le _, ?_, fun _ => ⟨by simp [PGSIZE], rfl⟩⟩
      unfold load_segment_loop
      simp



theorem read_counts_sum (read_bytes : Nat) (n : Nat) :
    ((List.range n).map
      (fun k => min PGSIZE (read_bytes - min (k * PGSIZE) read_bytes))).sum
      = min (n * PGSIZE) read_bytes := by
  induction n with
  | zero => simp
  | succ n ih =>
    rw [List.range_succ, List.map_append, List.sum_append, ih]
    simp only [List.map_cons, List.map_nil, List.sum_cons, List.sum_nil, PGSIZE]
    omega

/-- C6: for page-aligned 32-bit `upage` and `ofs` and 32-bit `read_bytes`, `zero_bytes`
whose sum is a multiple of `PGSIZE`, when every `create_pte` succeeds, `load_segment`
returns true for every fuel of at least `(read_bytes + zero_bytes) / PGSIZE`
iterations; its only file operation is the initial `file_seek` (no read); it registers
exactly `(read_bytes + zero_bytes) / PGSIZE` entries, all `LOAD`, not resident and with
the given writable flag, the `k`-th at page `upage + k * PGSIZE` with file offset
`ofs + min (k * PGSIZE) read_bytes` (both as 32-bit values, and equal to the plain sums
whenever the segment does not run past the end of the 32-bit range) and read count
`min PGSIZE (read_bytes - min (k * PGSIZE) read_bytes)`; the read counts sum to
`read_bytes`. -/
theorem load_segment_lazy (pte_ok : Nat → Bool) (fuel : Nat) (file : Option Nat)
    (ofs upage read_bytes zero_bytes : Nat) (writable : Bool) (st : VmState)
    (hok : ∀ k, pte_ok k = true)
    (hofs32 : ofs < 4294967296) (hup32 : upage < 4294967296)
    (hread32 : read_bytes < 4294967296) (hzero32 : zero_bytes < 4294967296)
    (hupage : upage % PGSIZE = 0) (hofs : ofs % PGSIZE = 0)
    (hmul : (read_bytes + zero_bytes) % PGSIZE = 0)
    (hfuel : (read_bytes + zero_bytes) / PGSIZE ≤ fuel) :
    load_segment pte_ok fuel file ofs upage read_bytes zero_bytes writable st
      = Except.ok (true,
          { st with
            page_table := st.page_table ++
              (List.range ((read_bytes + zero_bytes) / PGSIZE)).map (fun k =>
                { vpn := (upage + k * PGSIZE) % 4294967296,
                  type := pte_type.LOAD,
                  writable := writable,
                  file := file,
                  offset := (ofs + min (k * PGSIZE) read_bytes) % 4294967296,
                  read_bytes := min PGSIZE (read_bytes - min (k * PGSIZE) read_bytes),
                  mem_flag := false,
                  swap_slot := 0 }) },
          [Event.file_seek ofs]) ∧
    ((List.range ((read_bytes + zero_bytes) / PGSIZE)).map
      (fun k => min PGSIZE (read_bytes - min (k * PGSIZE) read_bytes))).sum
        = read_bytes ∧
    (upage + (read_bytes + zero_bytes) ≤ 4294967296 → ofs + read_bytes < 4294967296 →
      ∀ k, k < (read_bytes + zero_bytes) / PGSIZE →
        (upage + k * PGSIZE) % 4294967296 = upage + k * PGSIZE ∧
        (ofs + min (k * PGSIZE) read_bytes) % 4294967296
          = ofs + min (k * PGSIZE) read_bytes) := by
  refine ⟨?_, ?_, ?_⟩
  · obtain ⟨m, b, _, hrun, hall⟩ := load_segment_loop_entries pte_ok file writable fuel 0
      ofs upage read_bytes zero_bytes st hofs32 hup32 hread32 hzero32 hmul hfuel
    obtain ⟨rfl, rfl⟩ := hall hok
    unfold load_segment
    have h1 : ¬ ((read_bytes + zero_bytes) % 4294967296 % PGSIZE ≠ 0) := by
      simp only [PGSIZE] at hmul ⊢; omega
    have h2 : ¬ (upage &&& PGMASK ≠ 0) := by
      rw [and_PGMASK]; simpa using hupage
    have h3 : ¬ (ofs % PGSIZE ≠ 0) := by simpa using hofs
    rw [if_neg h1, if_neg h2, if_neg h3, hrun]
    rfl
  · rw [read_counts_sum]
    simp only [PGSIZE] at hmul ⊢
    omega
  · intro hfit hofit k hk
    simp only [PGSIZE] at hmul hk ⊢
    constructor
    · apply Nat.mod_eq_of_lt; omega
    · apply Nat.mod_eq_of_lt; omega

theorem load_segment_lazy_witness :
    load_segment (fun _ => true) 2 (some 1) 4096 134512640 5000 3192 true vm_empty
      = Except.ok (true,
          { pagedir := [], frames := [],
            page_table :=
              [{ vpn := 134512640, type := pte_type.LOAD, writable := true,
                 file := some 1, offset := 4096, read_bytes := 4096, mem_flag := false,
                 swap_slot := 0 },
               { vpn := 134516736, type := pte_type.LOAD, writable := true,
                 file := some 1, offset := 8192, read_bytes := 904, mem_flag := false,
                 swap_slot := 0 }] },
          [Event.file_seek 4096]) :=
  (load_segment_lazy (fun _ => true) 2 (some 1) 4096 134512640 5000 3192 true vm_empty
    (fun _ => rfl) (by decide) (by decide) (by decide) (by decide) (by decide)
    (by decide) (by decide) (by decide)).1

/-! ## `validate_segment` and the `PT_LOAD` case of `load` -/

theorem validate_segment_facts (phdr : Elf32_Phdr) (file_length : Nat)
    (h : validate_segment phdr file_length = true) :
    phdr.p_offset % PGSIZE = phdr.p_vaddr % PGSIZE ∧ phdr.p_offset ≤ file_length ∧
    phdr.p_filesz ≤ phdr.p_memsz ∧ phdr.p_memsz ≠ 0 ∧ phdr.p_vaddr < PHYS_BASE ∧
    (phdr.p_vaddr + phdr.p_memsz) % 4294967296 < PHYS_BASE ∧
    phdr.p_vaddr ≤ (phdr.p_vaddr + phdr.p_memsz) % 4294967296 ∧
    PGSIZE ≤ phdr.p_vaddr := by
  unfold validate_segment at h
  simp only [and_PGMASK, is_user_vaddr] at h
  split_ifs at h with h1 h2 h3 h4 h5 h6 h7 h8
  simp only [Bool.not_eq_true', decide_eq_false_iff_not, not_not, ne_eq] at h1 h5 h6
  exact ⟨h1, by omega, by omega, h4, h5, h6, by omega, by omega⟩

theorem validate_segment_page_zero (phdr : Elf32_Phdr) (file_length : Nat)
    (h : phdr.p_vaddr < PGSIZE) : validate_segment phdr file_length = false := by
  cases hv : validate_segment phdr file_length with
  | false => rfl
  | true =>
    have := (validate_segment_facts phdr file_length hv).2.2.2.2.2.2.2
    omega


theorem load_segment_entries (pte_ok : Nat → Bool) (fuel : Nat) (file : Option Nat)
    (ofs upage read_bytes zero_bytes : Nat) (writable : Bool) (st : VmState)
    (hofs32 : ofs < 4294967296) (hup32 : upage < 4294967296)
    (hread32 : read_bytes < 4294967296) (hzero32 : zero_bytes < 4294967296)
    (hupage : upage % PGSIZE = 0) (hofs : ofs % PGSIZE = 0)
    (hmul : (read_bytes + zero_bytes) % PGSIZE = 0)
    (hfuel : (read_bytes + zero_bytes) / PGSIZE ≤ fuel) :
    ∃ m b, m ≤ (read_bytes + zero_bytes) / PGSIZE ∧
      load_segment pte_ok fuel file ofs upage read_bytes zero_bytes writable st
        = Except.ok (b,
            { st with
              page_table := st.page_table ++
                (List.range m).map (segment_entry file writable ofs upage read_bytes) },
            [Event.file_seek ofs]) ∧
      ((∀ j, pte_ok j = true) → m = (read_bytes + zero_bytes) / PGSIZE ∧ b = true) := by
  obtain ⟨m, b, hm, hrun, hall⟩ := load_segment_loop_entries pte_ok file writable fuel 0
    ofs upage read_bytes zero_bytes st hofs32 hup32 hread32 hzero32 hmul hfuel
  refine ⟨m, b, hm, ?_, hall⟩
  unfold load_segment
  have h1 : ¬ ((read_bytes + zero_bytes) % 4294967296 % PGSIZE ≠ 0) := by
    simp only [PGSIZE] at hmul ⊢; omega
  have h2 : ¬ (upage &&& PGMASK ≠ 0) := by
    rw [and_PGMASK]; simpa using hupage
  have h3 : ¬ (ofs % PGSIZE ≠ 0) := by simpa using hofs
  rw [if_neg h1, if_neg h2, if_neg h3, hrun]

theorem load_pt_load_valid (pte_ok : Nat → Bool) (fuel : Nat) (file : Option Nat)
    (file_length : Nat) (phdr : Elf32_Phdr) (st : VmState)
    (hwf : phdr.wf) (hfuel : 1048576 ≤ fuel)
    (hv : validate_segment phdr file_length = true) :
    ∃ m b ofs read_bytes,
      m ≤ (phdr.p_vaddr % PGSIZE + phdr.p_memsz + PGSIZE - 1) / PGSIZE ∧
      load_pt_load pte_ok fuel file file_length phdr st
        = Except.ok (b,
            { st with
              page_table := st.page_table ++
                (List.range m).map (segment_entry file
                  (decide ((phdr.p_flags &&& PF_W) ≠ 0)) ofs
                  (phdr.p_vaddr / PGSIZE * PGSIZE) read_bytes) },
            [Event.file_seek ofs]) ∧
      ((∀ j, pte_ok j = true) →
        m = (phdr.p_vaddr % PGSIZE + phdr.p_memsz + PGSIZE - 1) / PGSIZE ∧ b = true) := by
  obtain ⟨_, hoff, hva, _, hfs, hms, _, _⟩ := hwf
  obtain ⟨hsame, _, hle, hne, huser, hend, hwrap, hpg⟩ :=
    validate_segment_facts phdr file_length hv
  simp only [PGSIZE, PHYS_BASE] at hsame hpg huser hend
  have hsum : phdr.p_vaddr + phdr.p_memsz < 3221225472 := by omega
  unfold load_pt_load
  rw [if_pos hv]
  simp only [and_PGMASK, and_NOT_PGMASK _ hoff, and_NOT_PGMASK _ hva]
  have hX : (phdr.p_vaddr % PGSIZE + phdr.p_memsz) % 4294967296
      = phdr.p_vaddr % PGSIZE + phdr.p_memsz := by
    simp only [PGSIZE]; omega
  have hR : ROUND_UP (phdr.p_vaddr % PGSIZE + phdr.p_memsz) PGSIZE
      = (phdr.p_vaddr % PGSIZE + phdr.p_memsz + PGSIZE - 1) / PGSIZE * PGSIZE := by
    unfold ROUND_UP
    simp only [PGSIZE]; omega
  rw [hX, hR]
  by_cases hf : phdr.p_filesz > 0
  · simp only [if_pos hf]
    have hrd : (phdr.p_vaddr % PGSIZE + phdr.p_filesz) % 4294967296
        = phdr.p_vaddr % PGSIZE + phdr.p_filesz := by
      simp only [PGSIZE]; omega
    have hzr : ((phdr.p_vaddr % PGSIZE + phdr.p_memsz + PGSIZE - 1) / PGSIZE * PGSIZE
        + 4294967296 - (phdr.p_vaddr % PGSIZE + phdr.p_filesz)) % 4294967296
        = (phdr.p_vaddr % PGSIZE + phdr.p_memsz + PGSIZE - 1) / PGSIZE * PGSIZE
          - (phdr.p_vaddr % PGSIZE + phdr.p_filesz) := by
      simp only [PGSIZE]; omega
    rw [hrd, hzr]
    have htot : phdr.p_vaddr % PGSIZE + phdr.p_filesz +
        ((phdr.p_vaddr % PGSIZE + phdr.p_memsz + PGSIZE - 1) / PGSIZE * PGSIZE
          - (phdr.p_vaddr % PGSIZE + phdr.p_filesz))
        = (phdr.p_vaddr % PGSIZE + phdr.p_memsz + PGSIZE - 1) / PGSIZE * PGSIZE := by
      simp only [PGSIZE]; omega
    obtain ⟨m, b, hm, hrun, hall⟩ := load_segment_entries pte_ok fuel file
      (phdr.p_offset / PGSIZE * PGSIZE) (phdr.p_vaddr / PGSIZE * PGSIZE)
      (phdr.p_vaddr % PGSIZE + phdr.p_filesz)
      ((phdr.p_vaddr % PGSIZE + phdr.p_memsz + PGSIZE - 1) / PGSIZE * PGSIZE
          - (phdr.p_vaddr % PGSIZE + phdr.p_filesz))
      (decide ((phdr.p_flags &&& PF_W) ≠ 0)) st
      (by simp only [PGSIZE]; omega) (by simp only [PGSIZE]; omega)
      (by simp only [PGSIZE]; omega) (by simp only [PGSIZE]; omega)
      (by simp only [PGSIZE]; omega) (by simp only [PGSIZE]; omega)
      (by rw [htot]; simp only [PGSIZE]; omega)
      (by rw [htot]; simp only [PGSIZE]; omega)
    rw [htot] at hm hall
    have hdiv : (phdr.p_vaddr % PGSIZE + phdr.p_memsz + PGSIZE - 1) / PGSIZE * PGSIZE / PGSIZE
        = (phdr.p_vaddr % PGSIZE + phdr.p_memsz + PGSIZE - 1) / PGSIZE := by
      simp only [PGSIZE]; omega
    rw [hdiv] at hm hall
    exact ⟨m, b, _, _, hm, hrun, hall⟩
  · simp only [if_neg hf]
    have htot : 0 + (phdr.p_vaddr % PGSIZE + phdr.p_memsz + PGSIZE - 1) / PGSIZE * PGSIZE
        = (phdr.p_vaddr % PGSIZE + phdr.p_memsz + PGSIZE - 1) / PGSIZE * PGSIZE := by
      omega
    obtain ⟨m, b, hm, hrun, hall⟩ := load_segment_entries pte_ok fuel file
      (phdr.p_offset / PGSIZE * PGSIZE) (phdr.p_vaddr / PGSIZE * PGSIZE)
      0
      ((phdr.p_vaddr % PGSIZE + phdr.p_memsz + PGSIZE - 1) / PGSIZE * PGSIZE)
      (decide ((phdr.p_flags &&& PF_W) ≠ 0)) st
      (by simp only [PGSIZE]; omega) (by simp only [PGSIZE]; omega)
      (by norm_num) (by simp only [PGSIZE]; omega)
      (by simp only [PGSIZE]; omega) (by simp only [PGSIZE]; omega)
      (by rw [htot]; simp only [PGSIZE]; omega)
      (by rw [htot]; simp only [PGSIZE]; omega)
    rw [htot] at hm hall
    have hdiv : (phdr.p_vaddr % PGSIZE + phdr.p_memsz + PGSIZE - 1) / PGSIZE * PGSIZE / PGSIZE
        = (phdr.p_vaddr % PGSIZE + phdr.p_memsz + PGSIZE - 1) / PGSIZE := by
      simp only [PGSIZE]; omega
    rw [hdiv] at hm hall
    exact ⟨m, b, _, _, hm, hrun, hall⟩


theorem segment_page_bounds (phdr : Elf32_Phdr) (file_length : Nat) (hwf : phdr.wf)
    (hv : validate_segment phdr file_length = true) (k : Nat)
    (hk : k < (phdr.p_vaddr % PGSIZE + phdr.p_memsz + PGSIZE - 1) / PGSIZE) :
    (phdr.p_vaddr / PGSIZE * PGSIZE + k * PGSIZE) % 4294967296
      = phdr.p_vaddr / PGSIZE * PGSIZE + k * PGSIZE ∧
    PGSIZE ≤ phdr.p_vaddr / PGSIZE * PGSIZE + k * PGSIZE ∧
    phdr.p_vaddr / PGSIZE * PGSIZE + k * PGSIZE < PHYS_BASE := by
  obtain ⟨_, hoff, hva, _, hfs, hms, _, _⟩ := hwf
  obtain ⟨hsame, _, hle, hne, huser, hend, hwrap, hpg⟩ :=
    validate_segment_facts phdr file_length hv
  simp only [PGSIZE, PHYS_BASE] at *
  omega

/-! ## `stack_constructor` -/

theorem store_bytes_outside (mem : Memory) (dst : Nat) (bytes : List Nat) (a : Nat)
    (hdst : dst + bytes.length ≤ 4294967296) (ha : a < 4294967296)
    (hout : a < dst ∨ dst + bytes.length ≤ a) :
    store_bytes mem dst bytes a = mem a := by
  unfold store_bytes
  rw [if_neg]
  omega

theorem store_bytes_inside (mem : Memory) (dst : Nat) (bytes : List Nat) (a : Nat)
    (hdst : dst + bytes.length ≤ 4294967296) (hlo : dst ≤ a) (hhi : a < dst + bytes.length) :
    store_bytes mem dst bytes a = bytes.getD (a - dst) 0 := by
  unfold store_bytes
  have hidx : (a + 4294967296 - dst % 4294967296) % 4294967296 = a - dst := by omega
  rw [hidx, if_pos (by omega)]

theorem word_at_congr (m1 m2 : Memory) (a : Nat)
    (h : ∀ x, a ≤ x → x < a + 4 → m1 x = m2 x) : word_at m1 a = word_at m2 a := by
  unfold word_at
  rw [h a (by omega) (by omega), h (a + 1) (by omega) (by omega),
    h (a + 2) (by omega) (by omega), h (a + 3) (by omega) (by omega)]

theorem word_at_store_bytes32 (mem : Memory) (a v : Nat) (ha : a + 4 ≤ 4294967296)
    (hv : v < 4294967296) : word_at (store_bytes mem a (bytes32 v)) a = v := by
  unfold word_at
  have hlen : (bytes32 v).length = 4 := rfl
  rw [store_bytes_inside mem a _ a (by rw [hlen]; omega) (by omega) (by rw [hlen]; omega),
    store_bytes_inside mem a _ (a + 1) (by rw [hlen]; omega) (by omega) (by rw [hlen]; omega),
    store_bytes_inside mem a _ (a + 2) (by rw [hlen]; omega) (by omega) (by rw [hlen]; omega),
    store_bytes_inside mem a _ (a + 3) (by rw [hlen]; omega) (by omega) (by rw [hlen]; omega)]
  have e0 : a - a = 0 := by omega
  have e1 : a + 1 - a = 1 := by omega
  have e2 : a + 2 - a = 2 := by omega
  have e3 : a + 3 - a = 3 := by omega
  rw [e0, e1, e2, e3]
  simp only [bytes32, List.getD_cons_zero, List.getD_cons_succ]
  omega

theorem word_at_store_zeros (mem : Memory) (a : Nat) (ha : a + 4 ≤ 4294967296) :
    word_at (store_bytes mem a (List.replicate 4 0)) a = 0 :=
  word_at_store_bytes32 mem a 0 ha (by norm_num)

theorem word_at_store_other (mem : Memory) (dst : Nat) (bytes : List Nat) (a : Nat)
    (hdst : dst + bytes.length ≤ 4294967296) (ha : a + 4 ≤ 4294967296)
    (hout : a + 4 ≤ dst ∨ dst + bytes.length ≤ a) :
    word_at (store_bytes mem dst bytes) a = word_at mem a := by
  apply word_at_congr
  intro x hx1 hx2
  exact store_bytes_outside mem dst bytes x hdst (by omega) (by omega)

theorem args_size_succ (argv : List (List Nat)) (n : Nat) (hn : n < argv.length) :
    args_size argv (n + 1) = args_size argv n + (strlen (argv.getD n []) + 1) := by
  unfold args_size
  rw [List.take_succ, List.map_append, List.sum_append, List.getD_eq_getElem?_getD,
    List.getElem?_eq_getElem hn]
  simp only [Option.toList, List.map_cons, List.map_nil, List.sum_cons, List.sum_nil,
    Option.getD_some, Nat.add_zero]

theorem args_size_zero (argv : List (List Nat)) : args_size argv 0 = 0 := by
  simp [args_size]

theorem args_size_mono (argv : List (List Nat)) (i n : Nat) (h : i ≤ n) (hn : n ≤ argv.length) :
    args_size argv i ≤ args_size argv n := by
  induction n with
  | zero =>
    have : i = 0 := by omega
    subst this; exact Nat.le_refl _
  | succ n ih =>
    by_cases hi : i = n + 1
    · subst hi; exact Nat.le_refl _
    · have := ih (by omega) (by omega)
      rw [args_size_succ argv n (by omega)]
      omega


theorem strlen_le_length (a : List Nat) : strlen a ≤ a.length :=
  (List.takeWhile_prefix _).length_le

theorem copied_bytes_getD (a : List Nat) (j : Nat) (hj : j ≤ strlen a) :
    ((a ++ [0]).take (strlen a + 1)).getD j 0 = (a ++ [0]).getD j 0 := by
  rw [List.getD_eq_getElem?_getD, List.getD_eq_getElem?_getD,
    List.getElem?_take_of_lt (by omega)]

theorem copied_bytes_length (a : List Nat) :
    ((a ++ [0]).take (strlen a + 1)).length = strlen a + 1 := by
  have := strlen_le_length a
  rw [List.length_take, List.length_append, List.length_singleton]
  omega

theorem push_args_spec (argv : List (List Nat)) : ∀ (n : Nat) (s : StackFrame),
    n ≤ argv.length → n ≤ 128 → s.esp < 4294967296 → args_size argv n ≤ s.esp →
    ∃ s', push_args argv n s = Except.ok s' ∧
      s'.esp + args_size argv n = s.esp ∧
      s'.word_align = s.word_align + args_size argv n ∧
      (∀ i, i < n → s'.argv_addr i = s'.esp + args_size argv i ∧
        ∀ j, j ≤ strlen (argv.getD i []) →
          s'.mem (s'.esp + args_size argv i + j) = (argv.getD i [] ++ [0]).getD j 0) ∧
      (∀ a, s.esp ≤ a → a < 4294967296 → s'.mem a = s.mem a) ∧
      (∀ i, n ≤ i → s'.argv_addr i = s.argv_addr i) := by
  intro n
  induction n with
  | zero =>
    intro s _ _ _ _
    refine ⟨s, rfl, ?_, ?_, ?_, fun _ _ _ => rfl, fun _ _ => rfl⟩
    · rw [args_size_zero]; rfl
    · rw [args_size_zero]; rfl
    · intro i hi; omega
  | succ n ih =>
    intro s hn h128 hesp hsize
    have hlt : n < argv.length := by omega
    have hget : argv[n]? = some (argv.getD n []) := by
      rw [List.getD_eq_getElem?_getD, List.getElem?_eq_getElem hlt]; rfl
    have hsz := args_size_succ argv n hlt
    rw [hsz] at hsize
    have hsub : ptr_sub s.esp (strlen (argv.getD n []) + 1)
        = s.esp - (strlen (argv.getD n []) + 1) :=
      ptr_sub_of_le _ _ hesp (by omega)
    obtain ⟨s', hrun, hesp', hwa, hargs, hframe, haddr⟩ := ih
      { esp := s.esp - (strlen (argv.getD n []) + 1),
        mem := store_bytes s.mem (s.esp - (strlen (argv.getD n []) + 1))
          ((argv.getD n [] ++ [0]).take (strlen (argv.getD n []) + 1)),
        argv_addr := Function.update s.argv_addr n (s.esp - (strlen (argv.getD n []) + 1)),
        word_align := s.word_align + (strlen (argv.getD n []) + 1) }
      (by omega) (by omega) (by simp only; omega) (by simp only; omega)
    simp only at hesp' hwa hframe haddr
    have hlen := copied_bytes_length (argv.getD n [])
    refine ⟨s', ?_, by omega, by omega, ?_, ?_, ?_⟩
    · unfold push_args
      rw [hget]
      simp only
      rw [if_neg (by omega), hsub]
      exact hrun
    · intro i hi
      by_cases hin : i < n
      · exact hargs i hin
      · have hi' : i = n := by omega
        subst hi'
        constructor
        · rw [haddr i (Nat.le_refl _)]
          simp only [Function.update_same]
          omega
        · intro j hj
          have haddr_eq : s'.esp + args_size argv i + j
              = s.esp - (strlen (argv.getD i []) + 1) + j := by omega
          rw [haddr_eq, hframe _ (by omega) (by omega),
            store_bytes_inside _ _ _ _ (by rw [hlen]; omega) (by omega) (by rw [hlen]; omega)]
          have hidx : s.esp - (strlen (argv.getD i []) + 1) + j
              - (s.esp - (strlen (argv.getD i []) + 1)) = j := by omega
          rw [hidx, copied_bytes_getD _ _ hj]
    · intro a ha1 ha2
      rw [hframe a (by omega) ha2,
        store_bytes_outside _ _ _ _ (by rw [hlen]; omega) ha2 (by rw [hlen]; omega)]
    · intro i hi
      rw [haddr i (by omega), Function.update_noteq (by omega)]


theorem push_addrs_spec : ∀ (n : Nat) (s : StackFrame),
    n ≤ 128 → s.esp < 4294967296 → 4 * n ≤ s.esp →
    (∀ i, i < n → s.argv_addr i < 4294967296) →
    ∃ s', push_addrs n s = Except.ok s' ∧
      s'.esp + 4 * n = s.esp ∧
      (∀ i, i < n → word_at s'.mem (s'.esp + 4 * i) = s.argv_addr i) ∧
      (∀ a, s.esp ≤ a → a < 4294967296 → s'.mem a = s.mem a) := by
  intro n
  induction n with
  | zero =>
    intro s _ _ _ _
    exact ⟨s, rfl, rfl, fun i hi => by omega, fun _ _ _ => rfl⟩
  | succ n ih =>
    intro s h128 hesp hsize hval
    have hsub : ptr_sub s.esp 4 = s.esp - 4 := ptr_sub_of_le _ _ hesp (by omega)
    obtain ⟨s', hrun, hesp', hwords, hframe⟩ := ih
      { s with esp := s.esp - 4,
               mem := store_bytes s.mem (s.esp - 4) (bytes32 (s.argv_addr n)) }
      (by omega) (by simp only; omega) (by simp only; omega)
      (fun i hi => hval i (by omega))
    simp only at hesp' hwords hframe
    have hlen : (bytes32 (s.argv_addr n)).length = 4 := rfl
    refine ⟨s', ?_, by omega, ?_, ?_⟩
    · unfold push_addrs
      rw [if_neg (by omega), hsub]
      exact hrun
    · intro i hi
      by_cases hin : i < n
      · exact hwords i hin
      · have hi' : i = n := by omega
        subst hi'
        have haddr_eq : s'.esp + 4 * i = s.esp - 4 := by omega
        rw [haddr_eq]
        rw [word_at_congr s'.mem (store_bytes s.mem (s.esp - 4) (bytes32 (s.argv_addr i)))
          (s.esp - 4) (fun x hx1 hx2 => hframe x hx1 (by omega))]
        exact word_at_store_bytes32 _ _ _ (by omega) (hval i (by omega))
    · intro a ha1 ha2
      rw [hframe a (by omega) ha2,
        store_bytes_outside _ _ _ _ (by rw [hlen]; omega) ha2 (by rw [hlen]; omega)]


theorem strlen_of_no_nul (a : List Nat) (h : 0 ∉ a) : strlen a = a.length := by
  unfold strlen
  rw [List.takeWhile_eq_self_iff.mpr]
  intro x hx
  have : x ≠ 0 := fun h0 => h (h0 ▸ hx)
  simpa using this

theorem stack_constructor_layout (argv : List (List Nat)) (S : Nat) (mem : Memory)
    (hargc : 1 ≤ argv.length) (hcap : argv.length ≤ 128)
    (hS : S < 4294967296) (hfit : frame_size argv ≤ PGSIZE) (hpage : PGSIZE ≤ S) :
    ∃ mem', stack_constructor argv.length argv S mem
        = Except.ok (S - frame_size argv, mem') ∧
      word_at mem' (S - frame_size argv) = 0 ∧
      word_at mem' (S - frame_size argv + 4) = argv.length ∧
      word_at mem' (S - frame_size argv + 8) = S - frame_size argv + 12 ∧
      (∀ i, i < argv.length →
        word_at mem' (S - frame_size argv + 12 + 4 * i)
          = S - args_size argv argv.length + args_size argv i ∧
        ∀ j, j ≤ strlen (argv.getD i []) →
          mem' (S - args_size argv argv.length + args_size argv i + j)
            = (argv.getD i [] ++ [0]).getD j 0) ∧
      word_at mem' (S - frame_size argv + 12 + 4 * argv.length) = 0 ∧
      (∀ a, S ≤ a → a < 4294967296 → mem' a = mem a) := by
  have hfs : frame_size argv = args_size argv argv.length
      + (4 - args_size argv argv.length % 4) % 4 + 4 + 4 * argv.length + 12 := rfl
  simp only [PGSIZE] at hfit hpage
  obtain ⟨s1, hrun1, hesp1, hwa1, hargs, hframe1, _⟩ := push_args_spec argv argv.length
    { esp := S, mem := mem, argv_addr := fun _ => 0, word_align := 0 }
    (Nat.le_refl _) hcap hS (by simp only; omega)
  simp only at hesp1 hwa1 hframe1
  rw [Nat.zero_add] at hwa1
  generalize hT : args_size argv argv.length = T at *
  generalize hP : (4 - T % 4) % 4 = pad at *
  have hpad : pad < 4 := by omega
  -- the two zero stores
  have hsub2 : ptr_sub s1.esp pad = s1.esp - pad := ptr_sub_of_le _ _ (by omega) (by omega)
  have hesp2 : (if pad ≠ 0 then ptr_sub s1.esp pad else s1.esp) = s1.esp - pad := by
    split_ifs with h
    · exact hsub2
    · omega
  have hsub3 : ptr_sub (s1.esp - pad) 4 = s1.esp - pad - 4 :=
    ptr_sub_of_le _ _ (by omega) (by omega)
  have hmem2 : ∀ a, s1.esp ≤ a → a < 4294967296 →
      (if pad ≠ 0 then store_bytes s1.mem (s1.esp - pad) (List.replicate pad 0)
        else s1.mem) a = s1.mem a := by
    intro a ha1 ha2
    split_ifs with h
    · exact store_bytes_outside _ _ _ _ (by rw [List.length_replicate]; omega) ha2
        (by rw [List.length_replicate]; omega)
    · rfl
  obtain ⟨s4, hrun4, hesp4, hwords, hframe4⟩ := push_addrs_spec argv.length
    { s1 with
      esp := s1.esp - pad - 4,
      mem := store_bytes
        (if pad ≠ 0 then store_bytes s1.mem (s1.esp - pad) (List.replicate pad 0)
          else s1.mem)
        (s1.esp - pad - 4) (List.replicate 4 0) }
    hcap (by simp only; omega) (by simp only; omega)
    (fun i hi => by
      simp only
      rw [(hargs i hi).1]
      have := args_size_mono argv i argv.length (by omega) (Nat.le_refl _)
      omega)
  simp only at hesp4 hwords hframe4
  have hE : S - frame_size argv = s4.esp - 12 := by omega
  have hs4 : s4.esp = S - frame_size argv + 12 := by omega
  have hsubA : ptr_sub s4.esp 4 = S - frame_size argv + 8 :=
    (ptr_sub_of_le _ _ (by omega) (by omega)).trans (by omega)
  have hsubB : ptr_sub s4.esp 8 = S - frame_size argv + 4 :=
    (ptr_sub_of_le _ _ (by omega) (by omega)).trans (by omega)
  have hsubC : ptr_sub s4.esp 12 = S - frame_size argv :=
    (ptr_sub_of_le _ _ (by omega) (by omega)).trans (by omega)
  generalize hEdef : S - frame_size argv = E at *
  have hl4 : (List.replicate 4 0).length = 4 := rfl
  have hb32 : ∀ v, (bytes32 v).length = 4 := fun _ => rfl
  -- memory above the three final stores is the memory after the second loop
  have hfinal : ∀ a, E + 12 ≤ a → a < 4294967296 →
      store_bytes (store_bytes (store_bytes s4.mem (E + 8) (bytes32 s4.esp)) (E + 4)
        (bytes32 argv.length)) E (List.replicate 4 0) a = s4.mem a := by
    intro a ha1 ha2
    rw [store_bytes_outside _ _ _ _ (by rw [hl4]; omega) ha2 (by rw [hl4]; omega),
      store_bytes_outside _ _ _ _ (by rw [hb32]; omega) ha2 (by rw [hb32]; omega),
      store_bytes_outside _ _ _ _ (by rw [hb32]; omega) ha2 (by rw [hb32]; omega)]
  refine ⟨store_bytes (store_bytes (store_bytes s4.mem (E + 8) (bytes32 s4.esp)) (E + 4)
    (bytes32 argv.length)) E (List.replicate 4 0), ?_, ?_, ?_, ?_, ?_, ?_, ?_⟩
  · unfold stack_constructor
    rw [hrun1]
    simp only
    have hpad' : (4 - s1.word_align % 4) % 4 = pad := by rw [hwa1]; exact hP
    rw [hpad', hesp2, hsub3, hrun4]
    simp only
    rw [hsubA, hsubB, hsubC]
  · exact word_at_store_zeros _ _ (by omega)
  · rw [word_at_store_other _ _ _ _ (by rw [hl4]; omega) (by omega) (by rw [hl4]; omega)]
    exact word_at_store_bytes32 _ _ _ (by omega) (by omega)
  · rw [word_at_store_other _ _ _ _ (by rw [hl4]; omega) (by omega) (by rw [hl4]; omega),
      word_at_store_other _ _ _ _ (by rw [hb32]; omega) (by omega) (by rw [hb32]; omega),
      word_at_store_bytes32 _ _ _ (by omega) (by omega)]
    exact hs4
  · intro i hi
    have hmono := args_size_mono argv i argv.length (by omega) (Nat.le_refl _)
    rw [hT] at hmono
    constructor
    · rw [word_at_congr _ s4.mem _ (fun x hx1 hx2 => hfinal x (by omega) (by omega))]
      have := hwords i hi
      rw [hs4] at this
      rw [this, (hargs i hi).1]
      omega
    · intro j hj
      have hlt := args_size_succ argv i hi
      have hmono2 := args_size_mono argv (i + 1) argv.length (by omega) (Nat.le_refl _)
      rw [hT] at hmono2
      have hstr := (hargs i hi).2 j hj
      have haddr : S - T + args_size argv i + j = s1.esp + args_size argv i + j := by omega
      rw [haddr, hfinal _ (by omega) (by omega), hframe4 _ (by omega) (by omega),
        store_bytes_outside _ _ _ _ (by rw [hl4]; omega) (by omega) (by rw [hl4]; omega),
        hmem2 _ (by omega) (by omega)]
      exact hstr
  · rw [word_at_congr _ s4.mem _ (fun x hx1 hx2 => hfinal x (by omega) (by omega))]
    have haddr : E + 12 + 4 * argv.length = s1.esp - pad - 4 := by omega
    rw [haddr, word_at_congr s4.mem _ _ (fun x hx1 hx2 => hframe4 x (by omega) (by omega))]
    exact word_at_store_zeros _ _ (by omega)
  · intro a ha1 ha2
    rw [hfinal a (by omega) ha2, hframe4 a (by omega) ha2,
      store_bytes_outside _ _ _ _ (by rw [hl4]; omega) ha2 (by rw [hl4]; omega),
      hmem2 a (by omega) ha2, hframe1 a ha1 ha2]


/-- C4, as stated, fails for more than 128 arguments: 129 one-letter arguments fit in the
stack page (their layout takes 792 bytes), but the first iteration of the first loop
stores to `argv_addr[128]`, outside the 128-slot array. -/
theorem stack_constructor_overruns_argv_addr :
    1 ≤ argv_129.length ∧ (∀ a ∈ argv_129, 0 ∉ a) ∧ frame_size argv_129 ≤ PGSIZE ∧
    PGSIZE ≤ PHYS_BASE ∧
    stack_constructor argv_129.length argv_129 PHYS_BASE zero_memory
      = Except.error Fault.buffer_overrun := by
  refine ⟨?_, ?_, ?_, ?_, ?_⟩
  · simp [argv_129]
  · intro a ha
    rw [argv_129] at ha
    rw [List.eq_of_mem_replicate ha]
    decide
  · simp [frame_size, args_size, argv_129, strlen, PGSIZE]
  · decide
  · unfold stack_constructor push_args
    simp [argv_129]

/-- C4, amended: for every argument vector `argv` of `argc` strings without NUL bytes,
`1 ≤ argc ≤ 128`, whose layout fits in the stack page below the 32-bit stack top `S`,
`stack_constructor (argc, argv, &esp)` started at `S` ends with a stack pointer `E`
such that the word at `E` is 0, the word at `E + 4` is `argc`, the word at `E + 8` is
`E + 12`, for every `i < argc` the word at `E + 12 + 4 * i` is an address `p` with
`p + strlen (argv[i]) + 1 ≤ S` at which memory holds the bytes of `argv[i]` followed by
a NUL, and the word at `E + 12 + 4 * argc` is 0. -/
theorem stack_constructor_argument_layout (argv : List (List Nat)) (S : Nat)
    (mem : Memory) (hargc : 1 ≤ argv.length) (hcap : argv.length ≤ 128)
    (hnul : ∀ a ∈ argv, 0 ∉ a)
    (hS : S < 4294967296) (hfit : frame_size argv ≤ PGSIZE) (hpage : PGSIZE ≤ S) :
    ∃ E mem', stack_constructor argv.length argv S mem = Except.ok (E, mem') ∧
      E + frame_size argv = S ∧
      word_at mem' E = 0 ∧
      word_at mem' (E + 4) = argv.length ∧
      word_at mem' (E + 8) = E + 12 ∧
      (∀ i, i < argv.length →
        word_at mem' (E + 12 + 4 * i) + ((argv.getD i []).length + 1) ≤ S ∧
        (List.range ((argv.getD i []).length + 1)).map
            (fun j => mem' (word_at mem' (E + 12 + 4 * i) + j))
          = argv.getD i [] ++ [0]) ∧
      word_at mem' (E + 12 + 4 * argv.length) = 0 := by
  obtain ⟨mem', hrun, h0, h1, h2, hargs, hnull, _⟩ :=
    stack_constructor_layout argv S mem hargc hcap hS hfit hpage
  have hfs : frame_size argv = args_size argv argv.length
      + (4 - args_size argv argv.length % 4) % 4 + 4 + 4 * argv.length + 12 := rfl
  simp only [PGSIZE] at hfit hpage
  refine ⟨S - frame_size argv, mem', hrun, by omega, h0, h1, h2, ?_, hnull⟩
  intro i hi
  obtain ⟨hw, hbytes⟩ := hargs i hi
  have hmem : argv.getD i [] ∈ argv := by
    rw [List.getD_eq_getElem?_getD, List.getElem?_eq_getElem hi]
    exact List.getElem_mem hi
  have hlen : strlen (argv.getD i []) = (argv.getD i []).length :=
    strlen_of_no_nul _ (hnul _ hmem)
  rw [hlen] at hbytes
  have hsucc := args_size_succ argv i hi
  rw [hlen] at hsucc
  have hmono := args_size_mono argv (i + 1) argv.length (by omega) (Nat.le_refl _)
  rw [hw]
  constructor
  · omega
  · apply List.ext_getElem
    · simp
    · intro n h1 h2
      simp only [List.length_map, List.length_range] at h1
      rw [List.getElem_map, List.getElem_range, hbytes n (by omega),
        List.getD_eq_getElem?_getD, List.getElem?_eq_getElem h2]
      rfl

theorem stack_constructor_argument_layout_witness :
    ∃ E mem', stack_constructor 2 argv_echo_hello PHYS_BASE zero_memory
        = Except.ok (E, mem') ∧
      E + 36 = PHYS_BASE ∧
      word_at mem' E = 0 ∧
      word_at mem' (E + 4) = 2 ∧
      word_at mem' (E + 8) = E + 12 ∧
      (List.range 5).map (fun j => mem' (word_at mem' (E + 12) + j))
        = [101, 99, 104, 111, 0] ∧
      (List.range 6).map (fun j => mem' (word_at mem' (E + 16) + j))
        = [104, 101, 108, 108, 111, 0] ∧
      word_at mem' (E + 20) = 0 := by
  obtain ⟨E, mem', hrun, hE, h0, h1, h2, hargs, hnull⟩ :=
    stack_constructor_argument_layout argv_echo_hello PHYS_BASE zero_memory
      (by decide) (by decide) (by decide) (by decide) (by decide) (by decide)
  exact ⟨E, mem', hrun, hE, h0, h1, h2, (hargs 0 (by decide)).2, (hargs 1 (by decide)).2,
    hnull⟩

/-! ## `load` -/

theorem segment_entry_vpn (file : Option Nat) (writable : Bool) (ofs upage read_bytes k : Nat) :
    (segment_entry file writable ofs upage read_bytes k).vpn
      = (upage + k * PGSIZE) % 4294967296 := rfl

theorem load_pt_load_total (pte_ok : Nat → Bool) (fuel : Nat) (file : Option Nat)
    (file_length : Nat) (phdr : Elf32_Phdr) (st : VmState)
    (hwf : phdr.wf) (hfuel : 1048576 ≤ fuel) :
    ∃ b new ev, load_pt_load pte_ok fuel file file_length phdr st
        = Except.ok (b, { st with page_table := st.page_table ++ new }, ev) ∧
      (∀ pte ∈ new, PGSIZE ≤ pte.vpn ∧ pte.vpn < PHYS_BASE) ∧
      (∀ e ∈ ev, ∃ ofs, e = Event.file_seek ofs) ∧
      (b = true → validate_segment phdr file_length = true) := by
  cases hv : validate_segment phdr file_length with
  | false =>
    refine ⟨false, [], [], ?_, ?_, ?_, ?_⟩
    · unfold load_pt_load
      rw [hv]
      simp
    · intro pte hp; simp at hp
    · intro e he; simp at he
    · intro h; simp at h
  | true =>
    have hN : (phdr.p_vaddr % PGSIZE + phdr.p_memsz + PGSIZE - 1) / PGSIZE ≤ fuel := by
      obtain ⟨_, hoff, hva, _, hfs, hms, _, _⟩ := hwf
      obtain ⟨_, _, _, _, huser, hend, hwrap, _⟩ :=
        validate_segment_facts phdr file_length hv
      simp only [PGSIZE, PHYS_BASE] at *
      omega
    obtain ⟨m, b, ofs, rb, hm, hrun, _⟩ :=
      load_pt_load_valid pte_ok fuel file file_length phdr st hwf hfuel hv
    refine ⟨b, _, _, hrun, ?_, ?_, fun _ => rfl⟩
    · intro pte hp
      rw [List.mem_map] at hp
      obtain ⟨k, hk, rfl⟩ := hp
      rw [List.mem_range] at hk
      obtain ⟨h1, h2, h3⟩ := segment_page_bounds phdr file_length hwf hv k (by omega)
      rw [segment_entry_vpn, h1]
      exact ⟨h2, h3⟩
    · intro e he
      simp only [List.mem_singleton] at he
      exact ⟨ofs, he⟩


theorem vm_append_nil (st : VmState) : { st with page_table := st.page_table ++ [] } = st := by
  cases st; simp

theorem load_headers_total (o : LoadOracle) (file : Option Nat) (hwf : o.wf) :
    ∀ (n i file_ofs : Nat) (st : VmState) (ev : List Event),
    ∃ b new evs, load_headers o file n i file_ofs st ev
        = Except.ok (b, { st with page_table := st.page_table ++ new }, ev ++ evs) ∧
      (∀ pte ∈ new, PGSIZE ≤ pte.vpn ∧ pte.vpn < PHYS_BASE) ∧
      (∀ e ∈ evs, (∃ ofs, e = Event.file_seek ofs) ∨ (∃ size, e = Event.file_read size)) ∧
      (b = true → ∀ j, j < n → ∀ ph,
        o.read_phdr ((file_ofs + 32 * j) % 4294967296) = some ph →
        ph.p_type = PT_LOAD → validate_segment ph o.file_length = true) := by
  intro n
  induction n with
  | zero =>
    intro i file_ofs st ev
    refine ⟨true, [], [], ?_, ?_, ?_, ?_⟩
    · unfold load_headers
      rw [vm_append_nil, List.append_nil]
    · intro pte hp; simp at hp
    · intro e he; simp at he
    · intro _ j hj; omega
  | succ n ih =>
    intro i file_ofs st ev
    unfold load_headers
    by_cases hchk : 2147483648 ≤ file_ofs ∨ o.file_length < file_ofs
    · rw [if_pos hchk]
      refine ⟨false, [], [], ?_, ?_, ?_, ?_⟩
      · rw [vm_append_nil, List.append_nil]
      · intro pte hp; simp at hp
      · intro e he; simp at he
      · intro h; simp at h
    · rw [if_neg hchk]
      have hofs : file_ofs < 2147483648 := by omega
      cases hread : o.read_phdr file_ofs with
      | none =>
        refine ⟨false, [], [Event.file_seek file_ofs, Event.file_read 32], ?_, ?_, ?_, ?_⟩
        · simp only [vm_append_nil]
        · intro pte hp; simp at hp
        · intro e he
          simp only [List.mem_cons, List.mem_singleton, List.not_mem_nil, or_false] at he
          rcases he with rfl | rfl
          · exact Or.inl ⟨_, rfl⟩
          · exact Or.inr ⟨_, rfl⟩
        · intro h; simp at h
      | some phdr =>
        simp only
        by_cases hbad : phdr.p_type = PT_DYNAMIC ∨ phdr.p_type = PT_INTERP ∨
            phdr.p_type = PT_SHLIB
        · rw [if_pos hbad]
          refine ⟨false, [], [Event.file_seek file_ofs, Event.file_read 32], ?_, ?_, ?_, ?_⟩
          · simp only [vm_append_nil]
          · intro pte hp; simp at hp
          · intro e he
            simp only [List.mem_cons, List.mem_singleton, List.not_mem_nil, or_false] at he
            rcases he with rfl | rfl
            · exact Or.inl ⟨_, rfl⟩
            · exact Or.inr ⟨_, rfl⟩
          · intro h; simp at h
        · rw [if_neg hbad]
          have hhead : ∀ e ∈ [Event.file_seek file_ofs, Event.file_read 32],
              (∃ ofs, e = Event.file_seek ofs) ∨ (∃ size, e = Event.file_read size) := by
            intro e he
            simp only [List.mem_cons, List.mem_singleton, List.not_mem_nil, or_false] at he
            rcases he with rfl | rfl
            · exact Or.inl ⟨_, rfl⟩
            · exact Or.inr ⟨_, rfl⟩
          have hstep : ∀ j, (file_ofs + 32 * (j + 1)) % 4294967296
              = ((file_ofs + 32) % 4294967296 + 32 * j) % 4294967296 := by
            intro j; omega
          by_cases hload : phdr.p_type = PT_LOAD
          · rw [if_pos hload]
            obtain ⟨b1, new1, ev2, hrun1, hnew1, hev2, hvalid⟩ :=
              load_pt_load_total (o.pte_ok i) 1048576 file o.file_length phdr st
                (hwf file_ofs phdr hread) (Nat.le_refl _)
            rw [hrun1]
            cases b1 with
            | false =>
              refine ⟨false, new1, [Event.file_seek file_ofs, Event.file_read 32] ++ ev2,
                ?_, hnew1, ?_, ?_⟩
              · simp only [List.append_assoc]
              · intro e he
                rcases List.mem_append.mp he with h | h
                · exact hhead e h
                · obtain ⟨ofs, rfl⟩ := hev2 e h
                  exact Or.inl ⟨_, rfl⟩
              · intro h; simp at h
            | true =>
              obtain ⟨b, new2, evs, hrun2, hnew2, hevs, hall⟩ := ih (i + 1)
                ((file_ofs + 32) % 4294967296)
                { st with page_table := st.page_table ++ new1 }
                (ev ++ [Event.file_seek file_ofs, Event.file_read 32] ++ ev2)
              refine ⟨b, new1 ++ new2,
                [Event.file_seek file_ofs, Event.file_read 32] ++ ev2 ++ evs, ?_, ?_, ?_, ?_⟩
              · simp only
                rw [hrun2]
                simp only [List.append_assoc]
              · intro pte hp
                rcases List.mem_append.mp hp with h | h
                · exact hnew1 pte h
                · exact hnew2 pte h
              · intro e he
                rcases List.mem_append.mp he with h | h
                · rcases List.mem_append.mp h with h | h
                  · exact hhead e h
                  · obtain ⟨ofs, rfl⟩ := hev2 e h
                    exact Or.inl ⟨_, rfl⟩
                · exact hevs e h
              · intro hb j hj ph hph hty
                cases j with
                | zero =>
                  have h0 : (file_ofs + 32 * 0) % 4294967296 = file_ofs := by omega
                  rw [h0, hread] at hph
                  cases hph
                  exact hvalid rfl
                | succ j =>
                  rw [hstep j] at hph
                  exact hall hb j (by omega) ph hph hty
          · rw [if_neg hload]
            obtain ⟨b, new2, evs, hrun2, hnew2, hevs, hall⟩ := ih (i + 1)
              ((file_ofs + 32) % 4294967296) st
              (ev ++ [Event.file_seek file_ofs, Event.file_read 32])
            refine ⟨b, new2, [Event.file_seek file_ofs, Event.file_read 32] ++ evs,
              ?_, hnew2, ?_, ?_⟩
            · rw [hrun2]
              simp only [List.append_assoc]
            · intro e he
              rcases List.mem_append.mp he with h | h
              · exact hhead e h
              · exact hevs e h
            · intro hb j hj ph hph hty
              cases j with
              | zero =>
                have h0 : (file_ofs + 32 * 0) % 4294967296 = file_ofs := by omega
                rw [h0, hread] at hph
                cases hph
                exact absurd hty hload
              | succ j =>
                rw [hstep j] at hph
                exact hall hb j (by omega) ph hph hty


theorem takeWhile_stops {α : Type} (p : α → Bool) (l : List α) (x : α)
    (h : l[(l.takeWhile p).length]? = some x) : p x = false := by
  induction l with
  | nil => simp at h
  | cons a l ih =>
    cases hp : p a with
    | true =>
      rw [List.takeWhile_cons_of_pos hp, List.length_cons, List.getElem?_cons_succ] at h
      exact ih h
    | false =>
      rw [List.takeWhile_cons_of_neg (by simp [hp]), List.length_nil,
        List.getElem?_cons_zero] at h
      cases h
      exact hp

theorem takeWhile_drop_le {α : Type} (p : α → Bool) (l : List α) (s : Nat) (hs : s ≤ l.length) :
    s + ((l.drop s).takeWhile p).length ≤ l.length := by
  have h1 : ((l.drop s).takeWhile p).length ≤ (l.drop s).length :=
    (List.takeWhile_prefix p).length_le
  rw [List.length_drop] at h1
  omega

theorem getD_ne_zero_lt (buf : List Nat) (i : Nat) (h : buf.getD i 0 ≠ 0) : i < buf.length := by
  by_contra hge
  apply h
  rw [List.getD_eq_getElem?_getD, List.getElem?_eq_none (by omega)]
  rfl

theorem strtok_r_length (buf : List Nat) (s : Nat) : (strtok_r buf s).buf.length = buf.length := by
  unfold strtok_r
  simp only
  split_ifs <;> simp

theorem strtok_r_save_le (buf : List Nat) (s : Nat) (hs : s ≤ buf.length) :
    (strtok_r buf s).save_ptr ≤ buf.length := by
  have h1 := takeWhile_drop_le (fun c => c == 32) buf s hs
  have h2 := takeWhile_drop_le (fun c => c != 32 && c != 0) buf _ h1
  unfold strtok_r
  simp only
  split_ifs with ha hb
  · exact h1
  · have := getD_ne_zero_lt buf _ hb
    simp only
    omega
  · exact h2

theorem strtok_r_progress (buf : List Nat) (s : Nat) (t : Nat)
    (h : (strtok_r buf s).token = some t) :
    s ≤ t ∧ t < (strtok_r buf s).save_ptr := by
  unfold strtok_r at h ⊢
  simp only at h ⊢
  by_cases ha : buf.getD (s + ((buf.drop s).takeWhile (fun c => c == 32)).length) 0 = 0
  · rw [if_pos ha] at h
    simp at h
  · rw [if_neg ha] at h ⊢
    have hlt := getD_ne_zero_lt buf _ ha
    have hne0 : buf[s + ((buf.drop s).takeWhile (fun c => c == 32)).length] ≠ 0 := by
      intro h0
      apply ha
      rw [List.getD_eq_getElem?_getD, List.getElem?_eq_getElem hlt, h0]
      rfl
    have hne32 : (buf[s + ((buf.drop s).takeWhile (fun c => c == 32)).length] == 32) = false := by
      apply takeWhile_stops (fun c => c == 32) (buf.drop s)
      rw [List.getElem?_drop, List.getElem?_eq_getElem hlt]
    have hpos : 1 ≤ ((buf.drop (s + ((buf.drop s).takeWhile (fun c => c == 32)).length)).takeWhile
        (fun c => c != 32 && c != 0)).length := by
      rw [List.drop_eq_getElem_cons hlt, List.takeWhile_cons_of_pos]
      · simp
      · simp only [Bool.and_eq_true, bne_iff_ne, ne_eq]
        exact ⟨by simpa using hne32, hne0⟩
    have ht : t = s + ((buf.drop s).takeWhile (fun c => c == 32)).length := by
      split_ifs at h <;> simp at h <;> omega
    split_ifs <;> simp only <;> omega


theorem load_tokens_total : ∀ (fuel : Nat) (buf : List Nat) (save_ptr : Nat)
    (token : Option Nat) (argv : List (Option Nat)),
    buf.length ≤ 128 → save_ptr ≤ buf.length → argv.length + 1 ≤ save_ptr →
    buf.length - save_ptr < fuel →
    ∃ more buf', load_tokens fuel buf save_ptr token argv
        = Except.ok (argv ++ token :: more, buf') ∧
      (argv ++ token :: more).length ≤ 128 ∧ buf'.length = buf.length ∧
      (∀ a ∈ more, a ≠ none) := by
  intro fuel
  induction fuel with
  | zero => intro buf save_ptr token argv _ _ _ h; omega
  | succ fuel ih =>
    intro buf save_ptr token argv hlen hsave hinv hfuel
    unfold load_tokens
    rw [if_neg (by omega)]
    simp only
    cases htok : (strtok_r buf save_ptr).token with
    | none =>
      refine ⟨[], (strtok_r buf save_ptr).buf, ?_, ?_, strtok_r_length buf save_ptr, ?_⟩
      · simp
      · simp; omega
      · intro a ha; simp at ha
    | some next =>
      have hprog := strtok_r_progress buf save_ptr next htok
      have hle := strtok_r_save_le buf save_ptr hsave
      have hl := strtok_r_length buf save_ptr
      obtain ⟨more, buf', hrun, hlen', hbuf', hmore⟩ := ih (strtok_r buf save_ptr).buf
        (strtok_r buf save_ptr).save_ptr (some next) (argv ++ [token])
        (by omega) (by omega) (by simp; omega) (by omega)
      refine ⟨some next :: more, buf', ?_, ?_, by omega, ?_⟩
      · simp only
        rw [hrun]
        simp
      · simpa using hlen'
      · intro a ha
        rcases List.mem_cons.mp ha with rfl | h
        · simp
        · exact hmore a h

theorem strtok_r_none_again (buf : List Nat) (s : Nat) (h : (strtok_r buf s).token = none) :
    (strtok_r (strtok_r buf s).buf (strtok_r buf s).save_ptr).token = none := by
  unfold strtok_r at h
  simp only at h
  by_cases ha : buf.getD (s + ((buf.drop s).takeWhile (fun c => c == 32)).length) 0 = 0
  · have hres : strtok_r buf s =
        { token := none,
          buf := buf,
          save_ptr := s + ((buf.drop s).takeWhile (fun c => c == 32)).length } := by
      unfold strtok_r
      simp only
      rw [if_pos ha]
    rw [hres]
    simp only
    have hnil : (buf.drop (s + ((buf.drop s).takeWhile (fun c => c == 32)).length)).takeWhile
        (fun c => c == 32) = [] := by
      by_cases hlt : s + ((buf.drop s).takeWhile (fun c => c == 32)).length < buf.length
      · rw [List.drop_eq_getElem_cons hlt, List.takeWhile_cons_of_neg]
        have h0 : buf[s + ((buf.drop s).takeWhile (fun c => c == 32)).length] = 0 := by
          rw [List.getD_eq_getElem?_getD, List.getElem?_eq_getElem hlt] at ha
          exact ha
        rw [h0]
        decide
      · rw [List.drop_eq_nil_of_le (by omega)]
        rfl
    unfold strtok_r
    simp only
    rw [hnil, List.length_nil, Nat.add_zero, if_pos ha]
  · rw [if_neg ha] at h
    split_ifs at h

theorem snprintf_s_length (src : List Nat) (size : Nat) (hsize : 1 ≤ size) :
    (snprintf_s src size).length ≤ size := by
  unfold snprintf_s
  rw [List.length_append, List.length_take, List.length_singleton]
  omega

theorem load_parse_total (file_name : List Nat) :
    ∃ first more buf, load_parse file_name = Except.ok (first :: more, buf) ∧
      (first :: more).length ≤ 128 ∧ (∀ a ∈ more, a ≠ none) ∧
      first = (strtok_r (snprintf_s file_name 128) 0).token := by
  have hlen := snprintf_s_length file_name 128 (by norm_num)
  unfold load_parse
  simp only
  cases htok : (strtok_r (snprintf_s file_name 128) 0).token with
  | none =>
    refine ⟨none, [], (strtok_r (snprintf_s file_name 128) 0).buf, ?_, by simp, ?_, rfl⟩
    · unfold load_tokens
      rw [if_neg (by simp)]
      simp only
      have hagain := strtok_r_none_again _ 0 htok
      simp only [hagain, List.nil_append]
      have hbuf : (strtok_r (strtok_r (snprintf_s file_name 128) 0).buf
          (strtok_r (snprintf_s file_name 128) 0).save_ptr).buf
          = (strtok_r (snprintf_s file_name 128) 0).buf := by
        generalize (strtok_r (snprintf_s file_name 128) 0).buf = b at *
        generalize (strtok_r (snprintf_s file_name 128) 0).save_ptr = p at *
        unfold strtok_r at hagain ⊢
        simp only at hagain ⊢
        split_ifs at hagain ⊢
        simp_all
      rw [hbuf]
    · intro a ha; simp at ha
  | some t =>
    have hprog := strtok_r_progress _ 0 t htok
    have hle := strtok_r_save_le (snprintf_s file_name 128) 0 (Nat.zero_le _)
    have hl := strtok_r_length (snprintf_s file_name 128) 0
    obtain ⟨more, buf', hrun, hlen', _, hmore⟩ := load_tokens_total
      ((snprintf_s file_name 128).length + 1)
      (strtok_r (snprintf_s file_name 128) 0).buf
      (strtok_r (snprintf_s file_name 128) 0).save_ptr (some t) []
      (by omega) (by omega) (by simp; omega) (by omega)
    refine ⟨some t, more, buf', ?_, by simpa using hlen', hmore, rfl⟩
    simpa using hrun



theorem push_args_total (argv : List (List Nat)) : ∀ (n : Nat) (s : StackFrame),
    n ≤ argv.length → n ≤ 128 → ∃ s', push_args argv n s = Except.ok s' := by
  intro n
  induction n with
  | zero => intro s _ _; exact ⟨s, rfl⟩
  | succ n ih =>
    intro s hn h128
    unfold push_args
    rw [List.getElem?_eq_getElem (by omega)]
    simp only
    rw [if_neg (by omega)]
    exact ih _ (by omega) (by omega)

theorem push_addrs_total : ∀ (n : Nat) (s : StackFrame),
    n ≤ 128 → ∃ s', push_addrs n s = Except.ok s' := by
  intro n
  induction n with
  | zero => intro s _; exact ⟨s, rfl⟩
  | succ n ih =>
    intro s h128
    unfold push_addrs
    rw [if_neg (by omega)]
    exact ih _ (by omega)

theorem stack_constructor_total (argc : Nat) (argv : List (List Nat)) (esp : Nat)
    (mem : Memory) (hargc : argc ≤ argv.length) (hcap : argc ≤ 128) :
    ∃ r, stack_constructor argc argv esp mem = Except.ok r := by
  unfold stack_constructor
  obtain ⟨s1, h1⟩ := push_args_total argv argc
    { esp := esp, mem := mem, argv_addr := fun _ => 0, word_align := 0 } hargc hcap
  rw [h1]
  simp only
  obtain ⟨s4, h4⟩ := push_addrs_total argc
    { s1 with
      esp := ptr_sub (if (4 - s1.word_align % 4) % 4 ≠ 0
        then ptr_sub s1.esp ((4 - s1.word_align % 4) % 4) else s1.esp) 4,
      mem := store_bytes
        (if (4 - s1.word_align % 4) % 4 ≠ 0 then
          store_bytes s1.mem
            (if (4 - s1.word_align % 4) % 4 ≠ 0
              then ptr_sub s1.esp ((4 - s1.word_align % 4) % 4) else s1.esp)
            (List.replicate ((4 - s1.word_align % 4) % 4) 0)
         else s1.mem)
        (ptr_sub (if (4 - s1.word_align % 4) % 4 ≠ 0
          then ptr_sub s1.esp ((4 - s1.word_align % 4) % 4) else s1.esp) 4)
        (List.replicate 4 0) } hcap
  rw [h4]
  exact ⟨_, rfl⟩

theorem setup_stack_pages (o : VmOracle) (esp : Nat) (st : VmState) (mem : Memory) :
    ∃ new, (setup_stack o esp st mem).2.2.1.page_table = st.page_table ++ new ∧
      ∀ pte ∈ new, PGSIZE ≤ pte.vpn ∧ pte.vpn < PHYS_BASE := by
  unfold setup_stack alloc_page_to_frame
  cases hf : o.frame with
  | none => exact ⟨[], by simp, by simp⟩
  | some pfn =>
    simp only [install_page]
    split_ifs with hinst
    · cases hp : o.pte_ok with
      | false => exact ⟨[], by simp [create_pte], by simp⟩
      | true =>
        refine ⟨[{ vpn := ptr_sub PHYS_BASE PGSIZE, type := pte_type.SWAP, writable := true,
                   file := none, offset := 0, read_bytes := 0, mem_flag := true,
                   swap_slot := 0 }], by simp [create_pte, page_insert_entry, set_frame_pte], ?_⟩
        intro pte hpte
        rw [List.mem_singleton] at hpte
        subst hpte
        decide
    · exact ⟨[], by simp [free_frame], by simp⟩


theorem load_outcome (o : LoadOracle) (file_name : List Nat) (t : thread) (st : VmState)
    (eip esp : Nat) (mem : Memory) (hwf : o.wf) :
    load o file_name t st eip esp mem = Except.error Fault.null_deref ∨
    ∃ r, load o file_name t st eip esp mem = Except.ok r ∧
      (∃ new, r.vm.page_table = st.page_table ++ new ∧
        ∀ pte ∈ new, PGSIZE ≤ pte.vpn ∧ pte.vpn < PHYS_BASE) ∧
      (r.success = true → ∃ ehdr, o.read_ehdr = some ehdr ∧
        ∀ j, j < ehdr.e_phnum → ∀ ph,
          o.read_phdr ((ehdr.e_phoff + 32 * j) % 4294967296) = some ph →
          ph.p_type = PT_LOAD → validate_segment ph o.file_length = true) := by
  have hnone : ∀ s : VmState, ∃ new, s.page_table = s.page_table ++ new ∧
      ∀ pte ∈ new, PGSIZE ≤ pte.vpn ∧ pte.vpn < PHYS_BASE :=
    fun s => ⟨[], by simp, by simp⟩
  unfold load
  simp only
  cases hpd : o.pagedir_create with
  | none =>
    right
    exact ⟨_, rfl, hnone st, fun h => by simp at h⟩
  | some pd =>
    simp only
    obtain ⟨first, more, buf, hparse, hlen, _, _⟩ := load_parse_total file_name
    rw [hparse]
    simp only [List.head?_cons]
    cases first with
    | none => left; rfl
    | some argv0 =>
      right
      simp only
      cases hopen : o.filesys_open (cstr_at buf argv0) with
      | none => exact ⟨_, rfl, hnone st, fun h => by simp at h⟩
      | some file =>
        simp only
        cases hehdr : o.read_ehdr with
        | none => exact ⟨_, rfl, hnone st, fun h => by simp at h⟩
        | some ehdr =>
          simp only
          split_ifs with hbad
          · exact ⟨_, rfl, hnone st, fun h => by simp at h⟩
          · obtain ⟨b, new, evs, hrun, hnew, _, hall⟩ := load_headers_total o (some file) hwf
              ehdr.e_phnum 0 ehdr.e_phoff st
              [Event.pagedir_activate (some pd), Event.lock_acquire,
                Event.filesys_open (cstr_at buf argv0), Event.file_read 52]
            simp only [List.cons_append, List.nil_append] at hrun ⊢
            rw [hrun]
            cases b with
            | false => exact ⟨_, rfl, ⟨new, rfl, hnew⟩, fun h => by simp at h⟩
            | true =>
              simp only
              obtain ⟨new2, hpt2, hnew2⟩ := setup_stack_pages o.stack esp
                { st with page_table := st.page_table ++ new } mem
              have hpages : ∃ new', (setup_stack o.stack esp
                  { st with page_table := st.page_table ++ new } mem).2.2.1.page_table
                    = st.page_table ++ new' ∧
                  ∀ pte ∈ new', PGSIZE ≤ pte.vpn ∧ pte.vpn < PHYS_BASE := by
                refine ⟨new ++ new2, ?_, ?_⟩
                · rw [hpt2, List.append_assoc]
                · intro pte hp
                  rcases List.mem_append.mp hp with h | h
                  · exact hnew pte h
                  · exact hnew2 pte h
              rcases hss : setup_stack o.stack esp
                  { st with page_table := st.page_table ++ new } mem with
                ⟨ok, esp1, st2, mem1⟩
              rw [hss] at hpages
              cases ok with
              | false => exact ⟨_, rfl, hpages, fun h => by simp at h⟩
              | true =>
                simp only
                obtain ⟨r, hr⟩ := stack_constructor_total (some argv0 :: more).length
                  ((some argv0 :: more).map (fun a => buf.drop (a.getD 0))) esp1
                  mem1 (by simp) hlen
                rw [hr]
                refine ⟨_, rfl, hpages, fun _ => ⟨ehdr, rfl, ?_⟩⟩
                intro j hj ph hph hty
                exact hall rfl j hj ph hph hty


/-- C5: for every `PT_LOAD` program header with 32-bit fields that `validate_segment`
accepts, the entries that `load` registers for it are at the pages
`p_vaddr / PGSIZE * PGSIZE + k * PGSIZE`, `k` below
`(p_vaddr % PGSIZE + p_memsz + PGSIZE - 1) / PGSIZE` (all of them when every `create_pte`
succeeds), and each of these pages starts at an address `≥ PGSIZE` and `< PHYS_BASE`; a
header with `p_vaddr < PGSIZE` is rejected by `validate_segment`, and the `PT_LOAD` case
fails without registering anything.  For `load` as a whole: unless it faults on a null
`argv[0]`, it returns, every entry it has registered (the stack page included) starts at
an address `≥ PGSIZE` and `< PHYS_BASE`, and it returns false whenever one of the
`e_phnum` program headers of the file is a `PT_LOAD` header with `p_vaddr < PGSIZE`. -/
theorem load_never_registers_page_zero (o : LoadOracle) (file_name : List Nat) (t : thread)
    (st : VmState) (eip esp : Nat) (mem : Memory) (phdr : Elf32_Phdr)
    (pte_ok : Nat → Bool) (fuel : Nat) (file : Option Nat)
    (ho : o.wf) (hwf : phdr.wf) (hfuel : 1048576 ≤ fuel) :
    (validate_segment phdr o.file_length = true →
      ∃ b m new ev,
        load_pt_load pte_ok fuel file o.file_length phdr st
          = Except.ok (b, { st with page_table := st.page_table ++ new }, ev) ∧
        m ≤ (phdr.p_vaddr % PGSIZE + phdr.p_memsz + PGSIZE - 1) / PGSIZE ∧
        new.map (fun pte => pte.vpn)
          = (List.range m).map (fun k => phdr.p_vaddr / PGSIZE * PGSIZE + k * PGSIZE) ∧
        (∀ pte ∈ new, PGSIZE ≤ pte.vpn ∧ pte.vpn < PHYS_BASE) ∧
        ((∀ j, pte_ok j = true) →
          b = true ∧ m = (phdr.p_vaddr % PGSIZE + phdr.p_memsz + PGSIZE - 1) / PGSIZE)) ∧
    (phdr.p_vaddr < PGSIZE →
      validate_segment phdr o.file_length = false ∧
      load_pt_load pte_ok fuel file o.file_length phdr st = Except.ok (false, st, [])) ∧
    (load o file_name t st eip esp mem = Except.error Fault.null_deref ∨
      ∃ r, load o file_name t st eip esp mem = Except.ok r ∧
        (∃ new, r.vm.page_table = st.page_table ++ new ∧
          ∀ pte ∈ new, PGSIZE ≤ pte.vpn ∧ pte.vpn < PHYS_BASE) ∧
        ((∃ ehdr j ph, o.read_ehdr = some ehdr ∧ j < ehdr.e_phnum ∧
            o.read_phdr ((ehdr.e_phoff + 32 * j) % 4294967296) = some ph ∧
            ph.p_type = PT_LOAD ∧ ph.p_vaddr < PGSIZE) →
          r.success = false)) := by
  refine ⟨?_, ?_, ?_⟩
  · intro hv
    obtain ⟨m, b, ofs, rb, hm, hrun, hall⟩ :=
      load_pt_load_valid pte_ok fuel file o.file_length phdr st hwf hfuel hv
    have hvpn : ∀ k, k < m →
        (segment_entry file (decide ((phdr.p_flags &&& PF_W) ≠ 0)) ofs
          (phdr.p_vaddr / PGSIZE * PGSIZE) rb k).vpn
          = phdr.p_vaddr / PGSIZE * PGSIZE + k * PGSIZE := by
      intro k hk
      rw [segment_entry_vpn]
      exact (segment_page_bounds phdr o.file_length hwf hv k (by omega)).1
    refine ⟨b, m, _, _, hrun, hm, ?_, ?_, fun h => ⟨(hall h).2, (hall h).1⟩⟩
    · rw [List.map_map]
      apply List.map_congr_left
      intro k hk
      exact hvpn k (List.mem_range.mp hk)
    · intro pte hp
      obtain ⟨k, hk, rfl⟩ := List.mem_map.mp hp
      have hk' := List.mem_range.mp hk
      rw [hvpn k hk']
      exact (segment_page_bounds phdr o.file_length hwf hv k (by omega)).2
  · intro hlow
    have hv := validate_segment_page_zero phdr o.file_length hlow
    refine ⟨hv, ?_⟩
    unfold load_pt_load
    rw [hv]
    rfl
  · rcases load_outcome o file_name t st eip esp mem ho with h | ⟨r, hr, hpages, hsucc⟩
    · exact Or.inl h
    · refine Or.inr ⟨r, hr, hpages, ?_⟩
      rintro ⟨ehdr, j, ph, hehdr, hj, hph, hty, hlow⟩
      cases hs : r.success with
      | false => rfl
      | true =>
        obtain ⟨ehdr', hehdr', hall⟩ := hsucc hs
        rw [hehdr] at hehdr'
        cases hehdr'
        have hv := hall j hj ph hph hty
        rw [validate_segment_page_zero ph o.file_length hlow] at hv
        exact absurd hv (by simp)


theorem load_never_registers_page_zero_witness :
    sample_load_oracle.wf ∧ sample_phdr_page_zero.wf ∧
    validate_segment sample_phdr_page_zero sample_load_oracle.file_length = false ∧
    ∃ r, load sample_load_oracle cmdline_echo_hello (fresh_child 0) vm_empty 0 0 zero_memory
        = Except.ok r ∧
      r.success = false ∧
      ∃ new, r.vm.page_table = vm_empty.page_table ++ new ∧
        ∀ pte ∈ new, PGSIZE ≤ pte.vpn ∧ pte.vpn < PHYS_BASE := by
  have ho : sample_load_oracle.wf := by
    intro ofs phdr h
    unfold sample_load_oracle at h
    simp only at h
    split_ifs at h
    · cases h; decide
    · cases h; decide
  obtain ⟨_, hreject, hload⟩ := load_never_registers_page_zero sample_load_oracle
    cmdline_echo_hello (fresh_child 0) vm_empty 0 0 zero_memory sample_phdr_page_zero
    (fun _ => true) 1048576 (some 3) ho (by decide) (by decide)
  rcases hload with hfault | ⟨r, hr, hpages, hfail⟩
  · have hok : (load sample_load_oracle cmdline_echo_hello (fresh_child 0) vm_empty 0 0
        zero_memory).toBool = true := rfl
    rw [hfault] at hok
    exact absurd hok (by decide)
  · exact ⟨ho, by decide, (hreject (by decide)).1, r, hr,
      hfail ⟨sample_ehdr, 1, sample_phdr_page_zero, rfl, by decide, rfl, rfl, by decide⟩,
      hpages⟩

/-! ## The file system lock in `load` -/

theorem lock_after_skip (held : Bool) (l rest : List Event)
    (h : ∀ e ∈ l, e ≠ Event.lock_acquire ∧ e ≠ Event.lock_release) :
    lock_after held (l ++ rest) = lock_after held rest := by
  induction l with
  | nil => rfl
  | cons e l ih =>
    have he := h e (List.mem_cons_self _ _)
    have hl : ∀ x ∈ l, x ≠ Event.lock_acquire ∧ x ≠ Event.lock_release :=
      fun x hx => h x (List.mem_cons_of_mem _ hx)
    rw [List.cons_append]
    cases e <;> first
      | exact absurd rfl he.1
      | exact absurd rfl he.2
      | (simp only [lock_after]; exact ih hl)

theorem count_release_skip (l : List Event)
    (h : ∀ e ∈ l, e ≠ Event.lock_acquire ∧ e ≠ Event.lock_release) :
    l.count Event.lock_release = 0 := by
  rw [List.count_eq_zero]
  intro hmem
  exact (h _ hmem).2 rfl

theorem load_lock_events (o : LoadOracle) (file_name : List Nat) (t : thread) (st : VmState)
    (eip esp : Nat) (mem : Memory) (hwf : o.wf) (pd : Nat)
    (hpd : o.pagedir_create = some pd) :
    load o file_name t st eip esp mem = Except.error Fault.null_deref ∨
    ∃ r mid, load o file_name t st eip esp mem = Except.ok r ∧
      r.events = Event.pagedir_activate (some pd) :: Event.lock_acquire ::
        (mid ++ [Event.lock_release]) ∧
      ∀ e ∈ mid, e ≠ Event.lock_acquire ∧ e ≠ Event.lock_release := by
  have hopenev : ∀ name, ∀ e ∈ [Event.filesys_open name],
      e ≠ Event.lock_acquire ∧ e ≠ Event.lock_release := by
    intro name e he
    rw [List.mem_singleton] at he
    subst he
    exact ⟨by simp, by simp⟩
  have hreadev : ∀ name, ∀ e ∈ [Event.filesys_open name, Event.file_read 52],
      e ≠ Event.lock_acquire ∧ e ≠ Event.lock_release := by
    intro name e he
    simp only [List.mem_cons, List.mem_singleton, List.not_mem_nil, or_false] at he
    rcases he with rfl | rfl <;> exact ⟨by simp, by simp⟩
  unfold load
  simp only [hpd]
  obtain ⟨first, more, buf, hparse, hlen, _, _⟩ := load_parse_total file_name
  rw [hparse]
  simp only [List.head?_cons]
  cases first with
  | none => left; rfl
  | some argv0 =>
    right
    simp only
    cases hopen : o.filesys_open (cstr_at buf argv0) with
    | none => exact ⟨_, _, rfl, rfl, hopenev _⟩
    | some file =>
      simp only
      cases hehdr : o.read_ehdr with
      | none => exact ⟨_, _, rfl, rfl, hreadev _⟩
      | some ehdr =>
        simp only
        split_ifs with hbad
        · exact ⟨_, _, rfl, rfl, hreadev _⟩
        · obtain ⟨b, new, evs, hrun, _, hevs, _⟩ := load_headers_total o (some file) hwf
            ehdr.e_phnum 0 ehdr.e_phoff st
            [Event.pagedir_activate (some pd), Event.lock_acquire,
              Event.filesys_open (cstr_at buf argv0), Event.file_read 52]
          simp only [List.cons_append, List.nil_append] at hrun ⊢
          rw [hrun]
          have hmid : ∀ e ∈ Event.filesys_open (cstr_at buf argv0) :: Event.file_read 52 :: evs,
              e ≠ Event.lock_acquire ∧ e ≠ Event.lock_release := by
            intro e he
            rcases List.mem_cons.mp he with rfl | he
            · exact ⟨by simp, by simp⟩
            rcases List.mem_cons.mp he with rfl | he
            · exact ⟨by simp, by simp⟩
            rcases hevs e he with ⟨ofs, rfl⟩ | ⟨size, rfl⟩ <;> exact ⟨by simp, by simp⟩
          cases b with
          | false =>
            exact ⟨_, Event.filesys_open (cstr_at buf argv0) :: Event.file_read 52 :: evs,
              rfl, rfl, hmid⟩
          | true =>
            simp only
            rcases hss : setup_stack o.stack esp
                { st with page_table := st.page_table ++ new } mem with
              ⟨ok, esp1, st2, mem1⟩
            cases ok with
            | false =>
              exact ⟨_, Event.filesys_open (cstr_at buf argv0) :: Event.file_read 52 :: evs,
                rfl, rfl, hmid⟩
            | true =>
              simp only
              obtain ⟨r, hr⟩ := stack_constructor_total (some argv0 :: more).length
                ((some argv0 :: more).map (fun a => buf.drop (a.getD 0))) esp1
                mem1 (by simp) hlen
              rw [hr]
              exact ⟨_, Event.filesys_open (cstr_at buf argv0) :: Event.file_read 52 :: evs,
                rfl, rfl, hmid⟩


theorem count_acquire_skip (l : List Event)
    (h : ∀ e ∈ l, e ≠ Event.lock_acquire ∧ e ≠ Event.lock_release) :
    l.count Event.lock_acquire = 0 := by
  rw [List.count_eq_zero]
  intro hmem
  exact (h _ hmem).1 rfl

/-- C11: `load` releases `filesys_lock` without holding it when `pagedir_create` fails:
that path jumps to `done` before `lock_acquire`, so the only lock operation of the run
is the `lock_release` at `done`, and `load` returns false.  On every other path
(a page directory was created, the collaborators deliver 32-bit headers), unless the run
faults on a null `argv[0]`, `load` returns with exactly one `lock_acquire` and exactly one
`lock_release`, the release is the last call and comes after the acquire, and the lock
is not held at the end. -/
theorem load_lock_discipline (o : LoadOracle) (file_name : List Nat) (t : thread)
    (st : VmState) (eip esp : Nat) (mem : Memory) (ho : o.wf) :
    (o.pagedir_create = none →
      ∃ r, load o file_name t st eip esp mem = Except.ok r ∧
        r.success = false ∧
        r.events = [Event.lock_release] ∧
        lock_after false r.events = none) ∧
    (∀ pd, o.pagedir_create = some pd →
      load o file_name t st eip esp mem = Except.error Fault.null_deref ∨
      ∃ r, load o file_name t st eip esp mem = Except.ok r ∧
        lock_after false r.events = some false ∧
        r.events.count Event.lock_acquire = 1 ∧
        r.events.count Event.lock_release = 1 ∧
        r.events.getLast? = some Event.lock_release) := by
  constructor
  · intro hpd
    unfold load
    simp only [hpd]
    exact ⟨_, rfl, rfl, rfl, rfl⟩
  · intro pd hpd
    rcases load_lock_events o file_name t st eip esp mem ho pd hpd with
      h | ⟨r, mid, hr, hev, hmid⟩
    · exact Or.inl h
    · refine Or.inr ⟨r, hr, ?_, ?_, ?_, ?_⟩
      · rw [hev]
        simp only [lock_after, Bool.false_eq_true, if_false]
        rw [lock_after_skip true mid _ hmid]
        simp [lock_after]
      · rw [hev]
        simp [List.count_cons, List.count_append, count_acquire_skip mid hmid]
      · rw [hev]
        simp [List.count_cons, List.count_append, count_release_skip mid hmid]
      · rw [hev, show Event.pagedir_activate (some pd) :: Event.lock_acquire ::
            (mid ++ [Event.lock_release])
            = (Event.pagedir_activate (some pd) :: Event.lock_acquire :: mid)
              ++ [Event.lock_release] from rfl]
        exact List.getLast?_concat _

theorem load_lock_discipline_witness :
    (∃ r, load load_oracle_no_pagedir cmdline_echo_hello (fresh_child 0) vm_empty 0 0
        zero_memory = Except.ok r ∧
      r.success = false ∧ r.events = [Event.lock_release] ∧
      lock_after false r.events = none) ∧
    (∃ r, load load_oracle_echo cmdline_echo_hello (fresh_child 0) vm_empty 0 0
        zero_memory = Except.ok r ∧
      lock_after false r.events = some false ∧
      r.events.count Event.lock_acquire = 1 ∧
      r.events.count Event.lock_release = 1) := by
  have h1 : load_oracle_no_pagedir.wf := by
    intro ofs phdr h
    unfold load_oracle_no_pagedir at h
    simp only at h
    split_ifs at h
    · cases h; decide
    · cases h; decide
  have h2 : load_oracle_echo.wf := by
    intro ofs phdr h
    unfold load_oracle_echo at h
    simp only at h
    split_ifs at h
    · cases h; decide
    · cases h; decide
  refine ⟨(load_lock_discipline load_oracle_no_pagedir cmdline_echo_hello (fresh_child 0)
    vm_empty 0 0 zero_memory h1).1 rfl, ?_⟩
  rcases (load_lock_discipline load_oracle_echo cmdline_echo_hello (fresh_child 0)
    vm_empty 0 0 zero_memory h2).2 77 rfl with hfault | ⟨r, hr, hl, ha, hrel, _⟩
  · have hok : (load load_oracle_echo cmdline_echo_hello (fresh_child 0) vm_empty 0 0
        zero_memory).toBool = true := rfl
    rw [hfault] at hok
    exact absurd hok (by decide)
  · exact ⟨r, hr, hl, ha, hrel⟩


end Pintos
